import Mathlib

/-!
Verification development for the volume-assembler / pyramid-writer converter
(`converter/reader.py` and `converter/writer.py`).

A 3D numpy array in (z, y, x) order is embedded as a list of z-planes, each a
list of y-rows, each a list of x-values.  Python slicing `a[lo:hi]` with
`0 <= lo, hi` is `(a.take hi).drop lo` (both clamp at the length).  Machine
integers are modeled as `Int`; sizes are tracked in exact bytes (`Nat`): the
source computes float GiB values `bytes / 2**30` and compares
`current + load > 0.5 * limit`; scaling both sides by `2**31` gives the exact
equivalent `2 * (current_bytes + load_bytes) > limit_bytes` used here (the byte
counts involved are far below 2**53, where binary floats on dyadic values of
this form are exact).
-/

abbrev A3 := List (List (List ℤ))

/-- Python slice `l[lo:hi]` for nonnegative bounds. -/
def slice1 {α : Type} (lo hi : ℕ) (l : List α) : List α := (l.take hi).drop lo

/-- Numpy slice `a[z0:z1, y0:y1, x0:x1]` on a (z, y, x) array. -/
def slice3 (z0 z1 y0 y1 x0 x1 : ℕ) (a : A3) : A3 :=
  (slice1 z0 z1 a).map (fun plane => (slice1 y0 y1 plane).map (fun row => slice1 x0 x1 row))

/-- Shape check for the embedded arrays: outer length `z`, every plane `y`
rows, every row `x` entries (a rectangular (z, y, x) numpy array). -/
def isShapeB (a : A3) (z y x : ℕ) : Bool :=
  a.length == z &&
  a.all (fun plane => plane.length == y && plane.all (fun row => row.length == x))

/-- Model of `_estimate_size_gb` (reader.py line 15), kept in exact bytes:
`np.prod(shape) * itemsize` (the source divides by `1024 ** 3` to report GiB;
all comparisons below are scaled accordingly). -/
def _estimate_size_bytes (z y x itemsize : ℕ) : ℕ := z * y * x * itemsize

/-- Model of the metadata branch of `read_zarr` (reader.py lines 110-122):
it returns `(shape, dtype, 0)` — the size estimate is the literal `0`,
independent of the store's shape and dtype. -/
def read_zarr_meta (shape : ℕ × ℕ × ℕ) (dtype : String) : (ℕ × ℕ × ℕ) × String × ℕ :=
  (shape, dtype, 0)

/-- Post-construction state of `FileReader` (reader.py lines 174-201).
`volumeFiles` holds, per source file in lexicographic filename order, the full
3D array `_read_image(file, suffix, read_to_array=True, transpose)` would
return for it; `volumeSizes` and `volumeCumulativeZ` are the lists recorded by
`_get_volume_info`; `memoryLimitBytes` is `memory_limit_gb * 1024 ** 3`. -/
structure FileReader where
  volumeName : String
  volumeFiles : List A3
  volumeTypes : List String
  volumeSizes : List ℕ
  volumeCumulativeZ : List ℕ
  volumeShape : ℕ × ℕ × ℕ
  memoryLimitBytes : ℕ

/-- The in-memory cache `self._cache` of a `FileReader`: a map from segment
index to its loaded array, embedded as an association list (later inserts are
consed in front, matching dict lookup of the most recent binding). -/
abbrev Cache := List (ℕ × A3)

/-- Python `i in self._cache` (dict key membership). -/
def cacheHas (c : Cache) (i : ℕ) : Bool := c.any (fun p => p.1 == i)

/-- Python `self._cache[i]` (dict key lookup). -/
def cacheGet (c : Cache) (i : ℕ) : Option A3 := (c.find? (fun p => p.1 == i)).map (·.2)

/-- File-order running totals of z-extents: `cumulativeOf [a, b, c] = [a, a+b, a+b+c]`. -/
def cumulativeOf : List ℕ → List ℕ
  | [] => []
  | e :: es => e :: (cumulativeOf es).map (e + ·)

/-- Reader.py line 298: `prev_cum = [0] + self.volume_cumulative_z[:-1]`. -/
def prevCum (cum : List ℕ) : List ℕ := 0 :: cum.dropLast

/-- Reader.py lines 299-302: the indices of the segments whose recorded
half-open z-range `[prev_cum[i], cum[i])` overlaps the request `[zs, ze)`:
`prev_z < z_end and cum_z > z_start`. -/
def neededIdx (cum : List ℕ) (zs ze : ℕ) : List ℕ :=
  (List.range cum.length).filter (fun i =>
    decide ((prevCum cum).getD i 0 < ze) && decide (zs < cum.getD i 0))

def neededOf (r : FileReader) (zs ze : ℕ) : List ℕ := neededIdx r.volumeCumulativeZ zs ze

/-- Reader.py lines 305-307: evict every cache entry whose segment index is
not in the overlapping set. -/
def evictedCache (r : FileReader) (c : Cache) (zs ze : ℕ) : Cache :=
  c.filter (fun p => decide (p.1 ∈ neededOf r zs ze))

/-- Reader.py lines 314 / 324: `to_load = [i for i in needed if i not in self._cache]`
(computed against the already-evicted cache). -/
def toLoadOf (r : FileReader) (c : Cache) (zs ze : ℕ) : List ℕ :=
  (neededOf r zs ze).filter (fun i => ¬ cacheHas (evictedCache r c zs ze) i)

/-- Reader.py lines 345-353, the slice-and-stitch loop: for each needed index
in ascending order take the cached array, clip the request to the segment
(`z0 = max(0, z_start - pcz)`, `z1 = min(data.shape[0], z_end - pcz)`; Nat
subtraction is exactly the `max(0, ·)` clamp) and slice; a missing cache key
is a `KeyError` (`none`).  The pieces are concatenated along z as in
`np.concatenate(parts, axis=0)`. -/
def stitchParts (r : FileReader) (c : Cache) (zs ze ys ye xs xe : ℕ) : List ℕ → Option A3
  | [] => some []
  | i :: rest =>
    match cacheGet c i, stitchParts r c zs ze ys ye xs xe rest with
    | some data, some acc =>
      let pcz := (prevCum r.volumeCumulativeZ).getD i 0
      some (slice3 (zs - pcz) (min data.length (ze - pcz)) ys ye xs xe data ++ acc)
    | _, _ => none

/-- `FileReader.read` (reader.py lines 283-355).  `loadOrder` is the order in
which the parallel full-file loads of step 5 complete (each completed future
stores its array under its own index); a real execution yields some
permutation of `to_load`.  The returned pair is (cache state after the call,
outcome): the source mutates `self._cache` in place (eviction, then inserts)
before any exception is raised, so the cache component is meaningful for the
error outcomes as well.  Memory check: `current + load > 0.5 * limit` in GiB
is modeled exactly as `2 * (current_bytes + load_bytes) > limit_bytes`. -/
def FileReader.read (r : FileReader) (cache : Cache) (loadOrder : List ℕ)
    (zs ze : ℕ) (xs? xe? ys? ye? : Option ℕ) : Cache × Except String A3 :=
  let fullY := r.volumeShape.2.1
  let fullX := r.volumeShape.2.2
  let xs := xs?.getD 0
  let xe := xe?.getD fullX
  let ys := ys?.getD 0
  let ye := ye?.getD fullY
  let needed := neededOf r zs ze
  let cache1 := evictedCache r cache zs ze
  let currentBytes := (cache1.map (fun p => r.volumeSizes.getD p.1 0)).sum
  let loadBytes := ((toLoadOf r cache zs ze).map (fun i => r.volumeSizes.getD i 0)).sum
  if 2 * (currentBytes + loadBytes) > r.memoryLimitBytes then
    (cache1, Except.error "MemoryError")
  else
    let cache2 := loadOrder.foldl (fun c i => (i, r.volumeFiles.getD i []) :: c) cache1
    match stitchParts r cache2 zs ze ys ye xs xe needed with
    | none => (cache2, Except.error "KeyError")
    | some parts =>
      if needed.isEmpty then (cache2, Except.error "ValueError")
      else (cache2, Except.ok parts)

/-- Deterministic wrapper used when embedding the writer's calls to
`self.reader.read(z_start=…, z_end=…)`: the loads complete in submission
order.  (The read result is proved independent of the completion order.) -/
def readDet (r : FileReader) (c : Cache) (zs ze : ℕ) : Cache × Except String A3 :=
  r.read c (toLoadOf r c zs ze) zs ze none none none none

/-- What the slice-and-stitch loop produces when every cache hit returns the
segment's own file data: the concatenation, in ascending segment order, of
each overlapping segment's own sub-range (the z-request clipped to the segment
and shifted by its recorded z-offset, with the y/x sub-range applied).  This
follows the wording of the spec's read contract and is the reference value the
cache-based loop is compared against. -/
def directParts (r : FileReader) (idxs : List ℕ) (zs ze ys ye xs xe : ℕ) : A3 :=
  idxs.flatMap (fun i =>
    let data := r.volumeFiles.getD i []
    let pcz := (prevCum r.volumeCumulativeZ).getD i 0
    slice3 (zs - pcz) (min data.length (ze - pcz)) ys ye xs xe data)

/-- Model of the accumulation in `FileReader._get_volume_info` (reader.py
lines 246-269): the per-file metadata futures are consumed with
`as_completed`, so the appends happen in completion order.  `metas` lists each
file's `(z_extent, size_bytes)` in lexicographic file order and
`completionOrder` is the order in which the futures complete; the recorded
cumulative-z list is the running total taken in completion order. -/
def getVolumeInfoCumZ (metas : List (ℕ × ℕ)) (completionOrder : List ℕ) : List ℕ :=
  (completionOrder.map (fun i => (metas.getD i (0, 0)).1)).foldl
    (fun acc z => acc ++ [acc.getLastD 0 + z]) []

/-- Model of `self.volume_sizes.append(size)` in the same `as_completed` loop:
the sizes end up listed in completion order. -/
def getVolumeInfoSizes (metas : List (ℕ × ℕ)) (completionOrder : List ℕ) : List ℕ :=
  completionOrder.map (fun i => (metas.getD i (0, 0)).2)

/-- Construction invariant the rest of the claims are stated against: the
recorded cumulative z-ends are the file-order running totals of the files'
actual z-extents, the recorded shape is the total z with the common (y, x)
plane shape, and every plane of every file is rectangular of that shape. -/
@[reducible] def Wf (r : FileReader) : Prop :=
  r.volumeCumulativeZ = cumulativeOf (r.volumeFiles.map List.length) ∧
  r.volumeShape.1 = (r.volumeFiles.map List.length).sum ∧
  (∀ f ∈ r.volumeFiles, ∀ plane ∈ f,
    plane.length = r.volumeShape.2.1 ∧ ∀ row ∈ plane, row.length = r.volumeShape.2.2)

/-- Cache contents are genuine: every cached entry holds exactly the full
array of its own segment's file.  Every entry the source ever stores is the
result of `_read_image(self.volume_files[i], …)` under key `i`, so this is an
invariant of the real cache. -/
@[reducible] def CacheWf (r : FileReader) (c : Cache) : Prop :=
  ∀ p ∈ c, p.2 = r.volumeFiles.getD p.1 []

/-! Writer embedding (`converter/writer.py`). -/

/-- Keys of the output zarr group: the per-level datasets `str(level)` and the
staging dataset `'temp'`.  Python's `str` is injective on level indices and
never produces `'temp'`, so the keys are embedded as this tagged type. -/
inductive DsKey where
  | level (k : ℕ)
  | temp
deriving DecidableEq, Repr

/-- A zarr dataset: the shape fixed by `create_dataset` plus its contents.
Zarr initializes chunks with fill value 0. -/
structure Dataset where
  shape : ℕ × ℕ × ℕ
  data : A3
deriving DecidableEq, Repr

/-- The datasets of the output group, keyed by `DsKey`. -/
abbrev Store := List (DsKey × Dataset)

/-- Metadata written by `_write_multiscale_metadata` (writer.py lines 153-179):
one entry of the `datasets` list, `{"path": str(level),
"coordinateTransformations": [{"type": "scale", "scale": [factor**level]*3}]}`. -/
structure DatasetMeta where
  path : String
  transformType : String
  scale : List ℕ
deriving DecidableEq, Repr

structure AxisMeta where
  name : String
  axisType : String
deriving DecidableEq, Repr

/-- One element of the top-level `multiscales` attribute list. -/
structure Multiscale where
  version : String
  name : String
  axes : List AxisMeta
  datasets : List DatasetMeta
deriving DecidableEq, Repr

/-- A zarr group: its datasets plus the top-level attribute document (only the
`multiscales` key is ever written). -/
structure ZarrGroup where
  datasets : Store
  attrs : Option (List Multiscale)

def storeGet (s : Store) (k : DsKey) : Option Dataset :=
  (s.find? (fun p => decide (p.1 = k))).map (·.2)

/-- Overwriting dataset (re-)creation / assignment under a key.  (The group's
key-to-dataset map is unordered; the entry order of this list is not
observable through `storeGet`.) -/
def storeSet (s : Store) (k : DsKey) (d : Dataset) : Store :=
  (k, d) :: s.filter (fun p => !decide (p.1 = k))

/-- Zero-filled (z, y, x) array: a freshly created zarr dataset reads back as
fill value 0.  (The in-memory staging buffer is `np.empty`; its values are
never read before being written, so the same zero model is used.) -/
def zeros3 (z y x : ℕ) : A3 :=
  List.replicate z (List.replicate y (List.replicate x 0))

/-- Assignment `a[z0:z0+len(blk)] = blk` (the source always writes
`[z_start:z_end]` with a block of exactly that extent). -/
def setZ (a : A3) (z0 : ℕ) (blk : A3) : A3 :=
  a.take z0 ++ blk ++ a.drop (z0 + blk.length)

/-- Assignment `a[:, y0:y0+h, :] = blk` where `blk` has shape (z, h, x). -/
def setY (a : A3) (y0 : ℕ) (blk : A3) : A3 :=
  List.zipWith (fun plane bp => plane.take y0 ++ bp ++ plane.drop (y0 + bp.length)) a blk

/-- Numpy `stack(results).transpose(1, 0, 2)`: turns a (y, z, x)-indexed stack
of resampled planes into a (z, y, x) block. -/
def transpose102 (a : A3) : A3 :=
  match a with
  | [] => []
  | p :: _ => (List.range p.length).map (fun j => a.map (fun plane => plane.getD j []))

/-- Python `range(0, total, step)` (writer.py chunk loops).  A zero step would
raise in Python and never occurs (the chunk size is a positive config). -/
def chunkStarts (total step : ℕ) : List ℕ :=
  if step = 0 then [] else (List.range ((total + step - 1) / step)).map (· * step)

/-- `can_use_memory` (writer.py lines 29-35): estimated staging bytes
`current_z * target_y * target_x * itemsize`, doubled as a safety margin, must
fit under the threshold.  The float-GiB comparison `total_gb <= threshold_gb`
is modeled exactly in bytes: `2 * total_bytes <= threshold_bytes`. -/
def canUseMemory (currentShape : ℕ × ℕ × ℕ) (ty tx itemsize thresholdBytes : ℕ) : Bool :=
  decide (2 * (currentShape.1 * ty * tx * itemsize) ≤ thresholdBytes)

/-- `FileWriter` configuration (writer.py lines 38-50).  `resize2d` stands for
the external collaborator `skimage.transform.resize` restricted to 2D planes:
`resize2d plane th tw order` is `resize(plane, (th, tw), order=order,
preserve_range=True, anti_aliasing=False).astype(dtype)`, used by both
`resize_xy_slice` and `resize_xz_slice`; `itemSize` is the element size of the
reader's dtype and `memoryThresholdBytes` is `memory_threshold * 1024 ** 3`. -/
structure FileWriter where
  reader : FileReader
  fullResShape : ℕ × ℕ × ℕ
  nLevel : ℕ
  resizeFactor : ℕ
  chunkSize : ℕ
  memoryThresholdBytes : ℕ
  resizeOrder : ℕ
  itemSize : ℕ
  resize2d : List (List ℤ) → ℕ → ℕ → ℕ → List (List ℤ)

/-- Pass 1 of the two-pass resize (writer.py lines 122-138), one iteration per
z-chunk, threading the staging buffer.  For `level == 0` the source executes
`block = self.reader.read(start_z=z_start, end_z=z_end)` (line 128); but
`FileReader.read` declares the parameters `z_start` / `z_end` (line 283), so
Python raises `TypeError` for the unexpected keyword argument on the first
chunk.  For `level >= 1` the block is `out_ds[str(level - 1)][z_start:z_end]`.
Per-plane resampling results are gathered by submission index
(`executor.map` keeps input order) and stacked. -/
def pass1Loop (w : FileWriter) (s : Store) (level ty tx order cz : ℕ) :
    List ℕ → A3 → Except String A3
  | [], temp => Except.ok temp
  | zst :: rest, temp =>
    let ze := min (zst + w.chunkSize) cz
    match (if level = 0 then
        Except.error "TypeError: read() got an unexpected keyword argument"
      else
        match storeGet s (DsKey.level (level - 1)) with
        | some ds => Except.ok (slice1 zst ze ds.data)
        | none => Except.error "KeyError") with
    | Except.error e => Except.error e
    | Except.ok block =>
      let resized := (List.range (ze - zst)).map (fun idx =>
        w.resize2d (block.getD idx []) ty tx order)
      pass1Loop w s level ty tx order cz rest (setZ temp zst resized)

/-- Pass 2 of the two-pass resize (writer.py lines 140-151), one iteration per
y-chunk of the staging buffer.  Each y-row's (z, x) plane is resampled то
(target_z, target_x); the stack is transposed back to (z, y, x) and written
into the level dataset's y-range.  The per-chunk writes all target the same
key, so the loop is carried on the dataset value (the store is updated once
with the final dataset below). -/
def pass2Loop (w : FileWriter) (temp : A3) (tz tx order ty : ℕ) :
    List ℕ → Dataset → Dataset
  | [], d => d
  | yst :: rest, d =>
    let ye := min (yst + w.chunkSize) ty
    let block := temp.map (fun plane => slice1 yst ye plane)
    let results := (List.range (ye - yst)).map (fun idx =>
      w.resize2d (block.map (fun plane => plane.getD idx [])) tz tx order)
    let resizedBlock := transpose102 results
    pass2Loop w temp tz tx order ty rest { shape := d.shape, data := setY d.data yst resizedBlock }

/-- Store state after the two `create_dataset` calls of
`_resize_and_write_level` (writer.py lines 101-116): the level dataset is
created with the target shape (overwrite), and, when the memory estimate
rejects the in-memory buffer, the `'temp'` dataset is created with shape
`(current_z, target_y, target_x)`. -/
def levelInitStore (w : FileWriter) (s : Store) (level : ℕ) (cur tgt : ℕ × ℕ × ℕ) : Store :=
  let s1 := storeSet s (DsKey.level level)
    { shape := tgt, data := zeros3 tgt.1 tgt.2.1 tgt.2.2 }
  if !canUseMemory cur tgt.2.1 tgt.2.2 w.itemSize w.memoryThresholdBytes then
    storeSet s1 DsKey.temp
      { shape := (cur.1, tgt.2.1, tgt.2.2), data := zeros3 cur.1 tgt.2.1 tgt.2.2 }
  else s1

/-- `_resize_and_write_level` (writer.py lines 96-151): create the level
dataset (overwrite), choose staging backing by the memory estimate, run the
two passes.  The staging buffer is carried as a value; when the on-disk
backing is chosen the `'temp'` dataset holds the buffer (pass 1 fully
overwrites it before pass 2 reads it back). -/
def resizeAndWriteLevel (w : FileWriter) (s : Store) (level : ℕ)
    (currentShape targetShape : ℕ × ℕ × ℕ) (order : ℕ) : Except String Store :=
  let cz := currentShape.1
  let tz := targetShape.1
  let ty := targetShape.2.1
  let tx := targetShape.2.2
  let s2 := levelInitStore w s level currentShape targetShape
  match pass1Loop w s2 level ty tx order cz (chunkStarts cz w.chunkSize) (zeros3 cz ty tx) with
  | Except.error e => Except.error e
  | Except.ok temp =>
    let s3 := if !canUseMemory currentShape ty tx w.itemSize w.memoryThresholdBytes then
        storeSet s2 DsKey.temp { shape := (cz, ty, tx), data := temp }
      else s2
    match storeGet s3 (DsKey.level level) with
    | none => Except.error "KeyError"
    | some d0 =>
      Except.ok (storeSet s3 (DsKey.level level)
        (pass2Loop w temp tz tx order ty (chunkStarts ty w.chunkSize) d0))

/-- The raw-copy loop of the level-0 fast path (writer.py lines 62-66): one
`reader.read(z_start, z_end)` per z-chunk, assigned into the level-0 dataset;
the reader's cache is threaded through the calls.  The per-chunk writes all
target dataset `"0"`, so the loop is carried on the dataset value. -/
def fastLoop (w : FileWriter) (cz : ℕ) :
    List ℕ → Dataset × Cache → Except String (Dataset × Cache)
  | [], p => Except.ok p
  | zst :: rest, p =>
    let ze := min (zst + w.chunkSize) cz
    match readDet w.reader p.2 zst ze with
    | (_, Except.error e) => Except.error e
    | (c', Except.ok block) =>
      fastLoop w cz rest ({ shape := p.1.shape, data := setZ p.1.data zst block }, c')

/-- `_resize_level_zero` (writer.py lines 52-75): if the reader's native shape
equals `full_res_shape`, create level 0 and copy chunk-by-chunk from the
reader with no resampling; otherwise run the two-pass resize with the reader
as source (which raises `TypeError`, see `pass1Loop`). -/
def resizeLevelZero (w : FileWriter) (s : Store) (cache : Cache) :
    Except String (Store × Cache) :=
  if w.reader.volumeShape = w.fullResShape then
    let cz := w.reader.volumeShape.1
    let d0 : Dataset :=
      { shape := w.fullResShape,
        data := zeros3 w.fullResShape.1 w.fullResShape.2.1 w.fullResShape.2.2 }
    match fastLoop w cz (chunkStarts cz w.chunkSize) (d0, cache) with
    | Except.error e => Except.error e
    | Except.ok p => Except.ok (storeSet s (DsKey.level 0) p.1, p.2)
  else
    match resizeAndWriteLevel w s 0 w.reader.volumeShape w.fullResShape w.resizeOrder with
    | Except.error e => Except.error e
    | Except.ok s' => Except.ok (s', cache)

/-- `_resize_and_write` (writer.py lines 77-94): level 0 delegates to the
level-zero routine; level k >= 1 reads the previous level's shape and
resamples to its elementwise floor division by the resize factor. -/
def resizeAndWrite (w : FileWriter) (s : Store) (cache : Cache) (level : ℕ) :
    Except String (Store × Cache) :=
  if level = 0 then resizeLevelZero w s cache
  else
    match storeGet s (DsKey.level (level - 1)) with
    | none => Except.error "KeyError"
    | some prev =>
      let tz := prev.shape.1 / w.resizeFactor
      let ty := prev.shape.2.1 / w.resizeFactor
      let tx := prev.shape.2.2 / w.resizeFactor
      match resizeAndWriteLevel w s level prev.shape (tz, ty, tx) w.resizeOrder with
      | Except.error e => Except.error e
      | Except.ok s' => Except.ok (s', cache)

/-- `_write_multiscale_metadata` (writer.py lines 153-179).  Note the `name`
field is the literal string `"image"` in the source, not the volume's name. -/
def writeMultiscaleMetadata (w : FileWriter) : List Multiscale :=
  [{ version := "0.4",
     name := "image",
     axes := [⟨"z", "space"⟩, ⟨"y", "space"⟩, ⟨"x", "space"⟩],
     datasets := (List.range w.nLevel).map (fun level =>
       { path := toString level,
         transformType := "scale",
         scale := List.replicate 3 (w.resizeFactor ^ level) }) }]

/-- The level loop of `write()` (writer.py lines 186-188). -/
def processLevels (w : FileWriter) : List ℕ → Store × Cache → Except String (Store × Cache)
  | [], p => Except.ok p
  | l :: ls, p =>
    match resizeAndWrite w p.1 p.2 l with
    | Except.error e => Except.error e
    | Except.ok p' => processLevels w ls p'

/-- `FileWriter.write` (writer.py lines 181-195): process every level in
order, delete the `'temp'` dataset if present, then write the multiscale
metadata.  `cache` is the reader's cache state at call time. -/
def FileWriter.write (w : FileWriter) (g : ZarrGroup) (cache : Cache) :
    Except String ZarrGroup :=
  match processLevels w (List.range w.nLevel) (g.datasets, cache) with
  | Except.error e => Except.error e
  | Except.ok (s, _) =>
    let s := if (storeGet s DsKey.temp).isSome then
        s.filter (fun p => !decide (p.1 = DsKey.temp))
      else s
    Except.ok { datasets := s, attrs := some (writeMultiscaleMetadata w) }

/-- Shape of pyramid level k as the writer derives it: level 0 is the
configured full-resolution shape, each further level the elementwise floor
division of the previous one by the downscale factor. -/
def levelShape (fullRes : ℕ × ℕ × ℕ) (factor : ℕ) : ℕ → ℕ × ℕ × ℕ
  | 0 => fullRes
  | k + 1 =>
    let p := levelShape fullRes factor k
    (p.1 / factor, p.2.1 / factor, p.2.2 / factor)

/-- Elementwise floor division of a shape. -/
def shapeDiv (sh : ℕ × ℕ × ℕ) (f : ℕ) : ℕ × ℕ × ℕ := (sh.1 / f, sh.2.1 / f, sh.2.2 / f)

/-! Decidable equality for `Except` results, used to evaluate concrete runs. -/

instance {ε α : Type} [DecidableEq ε] [DecidableEq α] : DecidableEq (Except ε α) := fun a b =>
  match a, b with
  | Except.ok x, Except.ok y =>
    if h : x = y then isTrue (by rw [h]) else isFalse (by intro hc; cases hc; exact h rfl)
  | Except.error x, Except.error y =>
    if h : x = y then isTrue (by rw [h]) else isFalse (by intro hc; cases hc; exact h rfl)
  | Except.ok _, Except.error _ => isFalse (by intro hc; cases hc)
  | Except.error _, Except.ok _ => isFalse (by intro hc; cases hc)

/-! Extractors for stating facts about concrete runs without binders. -/

/-- Value of a successful result. -/
def okPart {α : Type} : Except String α → Option α
  | Except.ok a => some a
  | Except.error _ => none

/-- Contents of dataset `str(k)` in a successful per-level result. -/
def lvlData (e : Except String (Store × Cache)) (k : ℕ) : Option A3 :=
  match e with
  | Except.ok p => (storeGet p.1 (DsKey.level k)).map (·.data)
  | Except.error _ => none

/-- Group produced by a successful `write()` (dummy empty group otherwise). -/
def theOkGroup (e : Except String ZarrGroup) : ZarrGroup :=
  match e with
  | Except.ok g => g
  | Except.error _ => { datasets := [], attrs := none }

/-! Concrete instances used by the closed theorems and witnesses. -/

/-- A 1-plane 2x2 source file. -/
def f0 : A3 := [[[1, 2], [3, 4]]]

/-- A 2-plane 2x2 source file. -/
def f1 : A3 := [[[5, 6], [7, 8]], [[9, 10], [11, 12]]]

/-- A two-segment reader (segments of z-extent 1 and 2) with correctly
recorded metadata and a comfortable memory budget. -/
def rA : FileReader :=
  { volumeName := "vol", volumeFiles := [f0, f1], volumeTypes := [".tif", ".tif"],
    volumeSizes := [16, 32], volumeCumulativeZ := [1, 3], volumeShape := (3, 2, 2),
    memoryLimitBytes := 1024 }

/-- A single-segment reader standing for a chunked-array-store (zarr) input:
its recorded size estimate is the `0` returned by the zarr metadata probe, and
its memory budget is 0 bytes. -/
def rZ : FileReader :=
  { volumeName := "zvol", volumeFiles := [f0], volumeTypes := [".zarr"],
    volumeSizes := [(read_zarr_meta (1, 2, 2) "uint16").2.2], volumeCumulativeZ := [1],
    volumeShape := (1, 2, 2), memoryLimitBytes := 0 }

/-- Reader whose segment sizes are large relative to its budget (each segment
600 bytes, budget 1024 bytes, so one load already exceeds half the budget). -/
def r4ce : FileReader :=
  { volumeName := "vol", volumeFiles := [f0, f1], volumeTypes := [".tif", ".tif"],
    volumeSizes := [600, 600], volumeCumulativeZ := [1, 3], volumeShape := (3, 2, 2),
    memoryLimitBytes := 1024 }

/-- A 2-plane 1x1 source file. -/
def f2a : A3 := [[[1]], [[2]]]

/-- A 5-plane 1x1 source file. -/
def f2b : A3 := [[[3]], [[4]], [[5]], [[6]], [[7]]]

/-- A reader as `FileReader.__init__` builds it when the two metadata futures
(file extents 2 and 5) complete in the order second-then-first: the recorded
cumulative z-ends and sizes come out in completion order. -/
def r2ce : FileReader :=
  { volumeName := "vol", volumeFiles := [f2a, f2b], volumeTypes := [".tif", ".tif"],
    volumeSizes := getVolumeInfoSizes [(2, 2), (5, 5)] [1, 0],
    volumeCumulativeZ := getVolumeInfoCumZ [(2, 2), (5, 5)] [1, 0],
    volumeShape := (7, 1, 1), memoryLimitBytes := 1000000000 }

/-- A 2x2x2 source volume in a single file. -/
def fW : A3 := [[[1, 2], [3, 4]], [[5, 6], [7, 8]]]

/-- Single-segment reader over `fW` with a 1 GiB budget. -/
def rW : FileReader :=
  { volumeName := "vol", volumeFiles := [fW], volumeTypes := [".tif"],
    volumeSizes := [64], volumeCumulativeZ := [2], volumeShape := (2, 2, 2),
    memoryLimitBytes := 1073741824 }

/-- A 2-level writer over `rW` whose `full_res_shape` matches the reader's
native shape (level 0 takes the fast path).  The resampling collaborator
returns zero planes of the requested target shape. -/
def wW : FileWriter :=
  { reader := rW, fullResShape := (2, 2, 2), nLevel := 2, resizeFactor := 2,
    chunkSize := 2, memoryThresholdBytes := 1073741824, resizeOrder := 1, itemSize := 2,
    resize2d := fun _ th tw _ => List.replicate th (List.replicate tw 0) }

/-- Same writer with a `full_res_shape` that differs from the reader's native
shape, so level 0 takes the two-pass resize path. -/
def wSlow : FileWriter := { wW with fullResShape := (1, 2, 2) }

/-- Same writer but the reader's volume name is "brain". -/
def wW9 : FileWriter := { wW with reader := { rW with volumeName := "brain" } }

/-- A pre-existing output store holding junk under the level-0 key. -/
def sJunk : Store := [(DsKey.level 0, { shape := (9, 9, 9), data := [[[99]]] })]

/-- Result group of `wW.write` on an empty store with an empty reader cache. -/
def gW : ZarrGroup := theOkGroup (wW.write { datasets := [], attrs := none } [])

/-- Result group of `wW.write` on the store that already holds `sJunk`. -/
def gJunk : ZarrGroup := theOkGroup (wW.write { datasets := sJunk, attrs := none } [])

/-- Result group of `wW9.write` on an empty store. -/
def gW9 : ZarrGroup := theOkGroup (wW9.write { datasets := [], attrs := none } [])

/-- `directParts` over explicit file and cumulative lists (same function with
the reader record opened up, for induction over the file list). -/
def dpF (files : List A3) (cum : List ℕ) (idxs : List ℕ) (zs ze ys ye xs xe : ℕ) : A3 :=
  idxs.flatMap (fun i =>
    let data := files.getD i []
    let pcz := (prevCum cum).getD i 0
    slice3 (zs - pcz) (min data.length (ze - pcz)) ys ye xs xe data)

/-- Recursive per-file form of the stitched result: the first file contributes
its clip of `[zs, ze)` and the remaining files see the window shifted down by
the first file's extent. -/
def stitchAux (ys ye xs xe : ℕ) : List A3 → ℕ → ℕ → A3
  | [], _, _ => []
  | f :: fs, zs, ze =>
    slice3 zs (min f.length ze) ys ye xs xe f ++
      stitchAux ys ye xs xe fs (zs - f.length) (ze - f.length)

/-- C1 (code bug).  First half, as the claim states it: when the assembler's
native shape equals `full_res_shape`, level 0 is copied chunk-by-chunk from
the assembler and its data equals the source volume exactly.  Second half:
when the shapes differ, the level-0 branch does not perform the two-pass
resize — it fails on its first chunk with a `TypeError`, because writer.py
line 128 calls `self.reader.read(start_z=…, end_z=…)` while `FileReader.read`
declares the parameters `z_start` / `z_end` (the fast path at line 65 uses the
correct names). -/
theorem c1_level_zero_fast_exact_slow_type_error :
    (rW.volumeShape = wW.fullResShape ∧
      lvlData (resizeLevelZero wW [] []) 0 = some rW.volumeFiles.flatten) ∧
    (wSlow.reader.volumeShape ≠ wSlow.fullResShape ∧
      resizeLevelZero wSlow [] [] =
        Except.error "TypeError: read() got an unexpected keyword argument") :=
  ⟨⟨rfl, rfl⟩, ⟨by decide, rfl⟩⟩

/-- C6 (code bug).  `_get_volume_info` consumes its metadata futures with
`as_completed` and appends in completion order: when the futures for files of
z-extents (2, 5) complete in the order second-then-first (a permutation of the
submission order), the recorded cumulative z-ends are `[5, 7]`, not the
file-order running totals `[2, 7]`, and the recorded per-segment sizes
`[5, 2]` are associated with the wrong files (file order would give `[2, 5]`). -/
theorem c6_volume_info_completion_order_bug :
    getVolumeInfoCumZ [(2, 2), (5, 5)] [1, 0] = [5, 7] ∧
    cumulativeOf [2, 5] = [2, 7] ∧
    ([5, 7] : List ℕ) ≠ [2, 7] ∧
    getVolumeInfoSizes [(2, 2), (5, 5)] [1, 0] = [5, 2] ∧
    ([5, 2] : List ℕ) ≠ [2, 5] ∧
    ([1, 0] : List ℕ).Perm [0, 1] := by
  decide

/-- C2, counterexample.  A successfully constructed `FileReader` whose
metadata futures completed out of order (see C6): its files have z-extents
2 and 5 (total 7), yet `read(2, 7)` returns an array whose first axis has
length 2, not `7 - 2 = 5`. -/
theorem c2_read_shape_counterexample :
    r2ce.volumeCumulativeZ = getVolumeInfoCumZ [(2, 2), (5, 5)] [1, 0] ∧
    ([1, 0] : List ℕ).Perm [0, 1] ∧
    r2ce.volumeFiles.map List.length = [2, 5] ∧
    ((okPart (r2ce.read [] [0, 1] 2 7 none none none none).2).map List.length = some 2 ∧
      (2 : ℕ) ≠ 7 - 2) := by
  refine ⟨rfl, by decide, by decide, ⟨rfl, by decide⟩⟩

/-- C4, counterexample.  A read whose estimated bytes exceed half the budget
raises `MemoryError` — but the cache state after the raise is NOT identical to
the cache state before the call: the non-overlapping cached segment 1 has
already been evicted (reader.py performs the eviction at lines 305-307 before
the memory check at lines 309-321). -/
theorem c4_memory_error_cache_counterexample :
    r4ce.read [(1, f1)] [0] 0 1 none none none none = ([], Except.error "MemoryError") ∧
    ([(1, f1)] : Cache) ≠ [] := by
  exact ⟨rfl, by decide⟩

/-- C7, counterexample.  A level dataset that already exists at the output
path is NOT skipped: `write()` recreates it (`overwrite=True`) and its
contents afterwards differ from the pre-existing ones, so recomputation and
rewrite did happen. -/
theorem c7_no_skip_counterexample :
    wW.write { datasets := sJunk, attrs := none } [] = Except.ok gJunk ∧
    storeGet gJunk.datasets (DsKey.level 0) ≠ storeGet sJunk (DsKey.level 0) := by
  exact ⟨rfl, by decide⟩

/-- C9, counterexample.  The multiscale descriptor's `name` field is the
literal `"image"` (writer.py line 170), not the volume's name: a successful
write for a volume named "brain" stores `name = "image"`. -/
theorem c9_metadata_counterexample :
    wW9.write { datasets := [], attrs := none } [] = Except.ok gW9 ∧
    gW9.attrs.map (fun l => l.map (·.name)) = some ["image"] ∧
    wW9.reader.volumeName = "brain" ∧
    ("image" : String) ≠ "brain" := by
  exact ⟨rfl, rfl, rfl, by decide⟩

/-! Lemmas about slices and prefix sums. -/

theorem slice1_length {α : Type} (lo hi : ℕ) (l : List α) :
    (slice1 lo hi l).length = min hi l.length - lo := by
  simp [slice1, List.length_drop, List.length_take]

theorem slice1_nil_of_ge {α : Type} (lo hi : ℕ) (l : List α) (h : min hi l.length ≤ lo) :
    slice1 lo hi l = [] := by
  apply List.drop_eq_nil_of_le
  simpa [List.length_take] using h

theorem slice3_length (z0 z1 y0 y1 x0 x1 : ℕ) (a : A3) :
    (slice3 z0 z1 y0 y1 x0 x1 a).length = min z1 a.length - z0 := by
  simp [slice3, slice1_length]

theorem slice3_nil (z0 z1 y0 y1 x0 x1 : ℕ) (a : A3) (h : min z1 a.length ≤ z0) :
    slice3 z0 z1 y0 y1 x0 x1 a = [] := by
  simp [slice3, slice1_nil_of_ge _ _ _ h]

theorem cumulativeOf_length (es : List ℕ) : (cumulativeOf es).length = es.length := by
  induction es with
  | nil => rfl
  | cons e es ih => simp [cumulativeOf, ih]

/-- The recorded cumulative end at index `i` is the sum of the first `i + 1`
extents. -/
theorem cum_getD_take (es : List ℕ) : ∀ i, i < es.length →
    (cumulativeOf es).getD i 0 = (es.take (i + 1)).sum := by
  induction es with
  | nil => intro i h; simp at h
  | cons e es ih =>
    intro i h
    match i with
    | 0 => simp [cumulativeOf]
    | j + 1 =>
      have hj : j < es.length := by simpa using h
      have h1 : (cumulativeOf (e :: es)).getD (j + 1) 0 = e + (cumulativeOf es).getD j 0 := by
        show (e :: (cumulativeOf es).map (e + ·)).getD (j + 1) 0 = _
        rw [List.getD_cons_succ,
          List.getD_eq_getElem _ _ (by rw [List.length_map, cumulativeOf_length]; exact hj),
          List.getElem_map,
          List.getD_eq_getElem _ _ (by rw [cumulativeOf_length]; exact hj)]
      rw [h1, ih j hj]
      show e + (es.take (j + 1)).sum = ((e :: es).take (j + 1 + 1)).sum
      rw [List.take_succ_cons, List.sum_cons]

/-- The recorded offset (`prev_cum`) at index `i` is the sum of the first `i`
extents. -/
theorem prevCum_getD_take (es : List ℕ) : ∀ i, i < es.length →
    (prevCum (cumulativeOf es)).getD i 0 = (es.take i).sum := by
  intro i h
  match i with
  | 0 => simp [prevCum]
  | j + 1 =>
    have hj : j < es.length - 1 := by omega
    have hlen : j < (cumulativeOf es).dropLast.length := by
      rw [List.length_dropLast, cumulativeOf_length]; exact hj
    show ((0 : ℕ) :: (cumulativeOf es).dropLast).getD (j + 1) 0 = _
    rw [List.getD_cons_succ, List.getD_eq_getElem _ _ hlen, List.getElem_dropLast,
      ← List.getD_eq_getElem _ 0 (by rw [cumulativeOf_length]; omega),
      cum_getD_take es j (by omega)]

/-- Per-index consistency: recorded cumulative end = recorded offset + extent. -/
theorem cum_getD_eq (es : List ℕ) : ∀ i, i < es.length →
    (cumulativeOf es).getD i 0 = (prevCum (cumulativeOf es)).getD i 0 + es.getD i 0 := by
  intro i h
  rw [cum_getD_take es i h, prevCum_getD_take es i h, List.take_succ, List.sum_append,
    List.getD_eq_getElem _ _ h]
  simp [List.getElem?_eq_getElem h]

theorem directParts_eq_dpF (r : FileReader) (idxs : List ℕ) (zs ze ys ye xs xe : ℕ) :
    directParts r idxs zs ze ys ye xs xe
      = dpF r.volumeFiles r.volumeCumulativeZ idxs zs ze ys ye xs xe := rfl

theorem stitchAux_length (ys ye xs xe : ℕ) : ∀ (fs : List A3) (zs ze : ℕ),
    (stitchAux ys ye xs xe fs zs ze).length = min ((fs.map List.length).sum) ze - zs := by
  intro fs
  induction fs with
  | nil => intro zs ze; simp [stitchAux]
  | cons f fs ih =>
    intro zs ze
    simp only [stitchAux, List.length_append, slice3_length, ih, List.map_cons, List.sum_cons]
    omega

theorem range_flatMap_succ {β : Type} (n : ℕ) (g : ℕ → List β) :
    (List.range (n + 1)).flatMap g = g 0 ++ (List.range n).flatMap (fun i => g (i + 1)) := by
  rw [List.range_succ_eq_map]
  simp [List.flatMap_cons, List.flatMap_map, Nat.succ_eq_add_one]

theorem map_length_getD (files : List A3) (i : ℕ) (h : i < files.length) :
    (files.map List.length).getD i 0 = (files.getD i []).length := by
  rw [List.getD_eq_getElem _ _ (by simpa using h), List.getElem_map,
    List.getD_eq_getElem _ _ h]

/-- Indexing through the recorded prefix sums agrees with the per-file
recursion. -/
theorem dpF_range_eq_stitchAux (ys ye xs xe : ℕ) : ∀ (files : List A3) (zs ze : ℕ),
    dpF files (cumulativeOf (files.map List.length)) (List.range files.length)
        zs ze ys ye xs xe
      = stitchAux ys ye xs xe files zs ze := by
  intro files
  induction files with
  | nil => intro zs ze; simp [dpF, stitchAux]
  | cons f fs ih =>
    intro zs ze
    rw [List.length_cons, dpF, range_flatMap_succ]
    have htail : ∀ i ∈ List.range fs.length,
        (fun i =>
          let data := (f :: fs).getD i []
          let pcz := (prevCum (cumulativeOf ((f :: fs).map List.length))).getD i 0
          slice3 (zs - pcz) (min data.length (ze - pcz)) ys ye xs xe data) (i + 1)
        = (fun i =>
          let data := fs.getD i []
          let pcz := (prevCum (cumulativeOf (fs.map List.length))).getD i 0
          slice3 (zs - f.length - pcz) (min data.length (ze - f.length - pcz))
            ys ye xs xe data) i := by
      intro i hi
      have hi' : i < fs.length := List.mem_range.mp hi
      have hp1 : (prevCum (cumulativeOf ((f :: fs).map List.length))).getD (i + 1) 0
          = f.length + (prevCum (cumulativeOf (fs.map List.length))).getD i 0 := by
        rw [prevCum_getD_take _ (i + 1) (by simpa using Nat.succ_lt_succ hi'),
          prevCum_getD_take _ i (by simpa using hi'), List.map_cons, List.take_succ_cons,
          List.sum_cons]
      simp only [List.getD_cons_succ, hp1]
      rw [Nat.sub_sub, Nat.sub_sub]
    rw [List.flatMap_congr htail]
    show slice3 (zs - 0) (min f.length (ze - 0)) ys ye xs xe f ++
        dpF fs (cumulativeOf (fs.map List.length)) (List.range fs.length)
          (zs - f.length) (ze - f.length) ys ye xs xe = _
    rw [ih]
    simp [stitchAux]

/-- Dropping `flatMap` items whose contribution is empty. -/
theorem flatMap_filter_nil {α β : Type} (l : List α) (p : α → Bool) (g : α → List β)
    (h : ∀ a ∈ l, p a = false → g a = []) : (l.filter p).flatMap g = l.flatMap g := by
  induction l with
  | nil => rfl
  | cons a t ih =>
    have ht : ∀ b ∈ t, p b = false → g b = [] := fun b hb => h b (List.mem_cons_of_mem a hb)
    by_cases hp : p a = true
    · rw [List.filter_cons_of_pos hp, List.flatMap_cons, List.flatMap_cons, ih ht]
    · have hp' : p a = false := by simpa using hp
      rw [List.filter_cons_of_neg (by simp [hp']), List.flatMap_cons,
        h a (List.mem_cons_self a t) hp', ih ht, List.nil_append]

/-- Non-overlapping segments contribute nothing to the stitch, so restricting
to the overlapping indices does not change the result. -/
theorem dpF_needed_eq_range (files : List A3) (zs ze ys ye xs xe : ℕ) :
    dpF files (cumulativeOf (files.map List.length))
        (neededIdx (cumulativeOf (files.map List.length)) zs ze) zs ze ys ye xs xe
      = dpF files (cumulativeOf (files.map List.length))
        (List.range (cumulativeOf (files.map List.length)).length) zs ze ys ye xs xe := by
  unfold neededIdx dpF
  apply flatMap_filter_nil
  intro i hi hfalse
  have hilen : i < files.length := by
    have := List.mem_range.mp hi
    rwa [cumulativeOf_length, List.length_map] at this
  have hcases : ze ≤ (prevCum (cumulativeOf (files.map List.length))).getD i 0 ∨
      (cumulativeOf (files.map List.length)).getD i 0 ≤ zs := by
    rcases Bool.and_eq_false_iff.mp hfalse with h1 | h1 <;>
      simp only [decide_eq_false_iff_not, not_lt] at h1
    · exact Or.inl h1
    · exact Or.inr h1
  show slice3 (zs - (prevCum (cumulativeOf (files.map List.length))).getD i 0)
      (min (files.getD i []).length
        (ze - (prevCum (cumulativeOf (files.map List.length))).getD i 0))
      ys ye xs xe (files.getD i []) = []
  apply slice3_nil
  rcases hcases with hle | hle
  · omega
  · have hcum := cum_getD_eq (files.map List.length) i (by simpa using hilen)
    rw [map_length_getD files i hilen] at hcum
    omega

/-! Cache lemmas. -/

/-- A lookup in a genuine cache returns the segment's own file data. -/
theorem cacheGet_of_wf (r : FileReader) (c : Cache) (hc : CacheWf r c) (i : ℕ) (v : A3)
    (h : cacheGet c i = some v) : v = r.volumeFiles.getD i [] := by
  unfold cacheGet at h
  cases hfind : c.find? (fun p => p.1 == i) with
  | none => rw [hfind] at h; simp at h
  | some q =>
    rw [hfind] at h
    simp only [Option.map_some', Option.some.injEq] at h
    have hq : q ∈ c := List.mem_of_find?_eq_some hfind
    have hkey : q.1 = i := by
      have := List.find?_some hfind
      simpa using this
    rw [← h, hc q hq, hkey]

theorem cacheWf_filter (r : FileReader) (c : Cache) (hc : CacheWf r c) (p : ℕ × A3 → Bool) :
    CacheWf r (c.filter p) :=
  fun q hq => hc q (List.mem_filter.mp hq).1

theorem cacheWf_foldl (r : FileReader) (lo : List ℕ) : ∀ (c : Cache), CacheWf r c →
    CacheWf r (lo.foldl (fun c i => (i, r.volumeFiles.getD i []) :: c) c) := by
  induction lo with
  | nil => intro c hc; exact hc
  | cons a t ih =>
    intro c hc
    apply ih
    intro q hq
    rcases List.mem_cons.mp hq with h | h
    · rw [h]
    · exact hc q h

/-- Keys after the parallel load: the load order reversed (each completed
future conses its entry) in front of the surviving keys. -/
theorem foldl_cons_keys (r : FileReader) (lo : List ℕ) : ∀ (c : Cache),
    (lo.foldl (fun c i => (i, r.volumeFiles.getD i []) :: c) c).map (·.1)
      = lo.reverse ++ c.map (·.1) := by
  induction lo with
  | nil => intro c; simp
  | cons a t ih =>
    intro c
    rw [List.foldl_cons, ih, List.reverse_cons]
    simp

/-- A successful stitch over a genuine cache equals the direct per-segment
concatenation. -/
theorem stitchParts_some_eq (r : FileReader) (c : Cache) (hc : CacheWf r c)
    (zs ze ys ye xs xe : ℕ) : ∀ (idxs : List ℕ) (v : A3),
    stitchParts r c zs ze ys ye xs xe idxs = some v →
    v = directParts r idxs zs ze ys ye xs xe := by
  intro idxs
  induction idxs with
  | nil =>
    intro v h
    simp only [stitchParts, Option.some.injEq] at h
    simp [directParts, ← h]
  | cons i rest ih =>
    intro v h
    cases hget : cacheGet c i with
    | none => rw [stitchParts, hget] at h; simp at h
    | some data =>
      cases hrest : stitchParts r c zs ze ys ye xs xe rest with
      | none => rw [stitchParts, hget, hrest] at h; simp at h
      | some acc =>
        rw [stitchParts, hget, hrest] at h
        simp only [Option.some.injEq] at h
        rw [← h, cacheGet_of_wf r c hc i data hget, ih acc hrest]
        simp [directParts, List.flatMap_cons]

/-- Unfolding of a successful `read`: the result is the direct per-segment
concatenation, the final cache is the evicted cache plus the loads in
completion order, and the needed set was nonempty. -/
theorem read_ok_spec (r : FileReader) (c : Cache) (lo : List ℕ) (zs ze : ℕ)
    (xs? xe? ys? ye? : Option ℕ) (c2 : Cache) (res : A3) (hc : CacheWf r c)
    (h : r.read c lo zs ze xs? xe? ys? ye? = (c2, Except.ok res)) :
    res = directParts r (neededOf r zs ze) zs ze (ys?.getD 0) (ye?.getD r.volumeShape.2.1)
        (xs?.getD 0) (xe?.getD r.volumeShape.2.2) ∧
    c2 = lo.foldl (fun c i => (i, r.volumeFiles.getD i []) :: c) (evictedCache r c zs ze) ∧
    (neededOf r zs ze).isEmpty = false := by
  simp only [FileReader.read] at h
  split at h
  · simp at h
  · split at h
    next hst => simp at h
    next parts hst =>
      split at h
      · simp at h
      next hne =>
        have h1 : c2 = (lo.foldl (fun c i => (i, r.volumeFiles.getD i []) :: c)
            (evictedCache r c zs ze)) := by
          have := congrArg Prod.fst h
          simpa using this.symm
        have h2 : parts = res := by
          have := congrArg Prod.snd h
          simpa using this
        refine ⟨?_, h1, by simpa using hne⟩
        rw [← h2]
        exact stitchParts_some_eq r _
          (cacheWf_foldl r lo _ (cacheWf_filter r c hc _)) _ _ _ _ _ _ _ parts hst

/-- Segment indices that overlap a request are in range. -/
theorem needed_lt_length (r : FileReader) (hwf : Wf r) (zs ze i : ℕ)
    (hi : i ∈ neededOf r zs ze) : i < r.volumeFiles.length := by
  unfold neededOf neededIdx at hi
  have := List.mem_range.mp (List.mem_filter.mp hi).1
  rwa [hwf.1, cumulativeOf_length, List.length_map] at this

theorem slice1_subset {α : Type} (lo hi : ℕ) (l : List α) : ∀ a ∈ slice1 lo hi l, a ∈ l :=
  fun _ ha => List.mem_of_mem_take (List.mem_of_mem_drop ha)

/-- Z-length of the direct concatenation over the overlapping segments. -/
theorem direct_needed_length (r : FileReader) (hwf : Wf r) (zs ze ys ye xs xe : ℕ) :
    (directParts r (neededOf r zs ze) zs ze ys ye xs xe).length
      = min r.volumeShape.1 ze - zs := by
  rw [directParts_eq_dpF]
  simp only [neededOf]
  rw [hwf.1, dpF_needed_eq_range, cumulativeOf_length, List.length_map,
    dpF_range_eq_stitchAux, stitchAux_length, hwf.2.1]

/-- Every plane of the direct concatenation has the requested y/x extents
(for in-range bounds). -/
theorem direct_mem_shape (r : FileReader) (hwf : Wf r) (zs ze ys ye xs xe : ℕ)
    (hye : ye ≤ r.volumeShape.2.1) (hxe : xe ≤ r.volumeShape.2.2) :
    ∀ plane ∈ directParts r (neededOf r zs ze) zs ze ys ye xs xe,
      plane.length = ye - ys ∧ ∀ row ∈ plane, row.length = xe - xs := by
  intro plane hplane
  unfold directParts at hplane
  obtain ⟨i, hi, hmem⟩ := List.mem_flatMap.mp hplane
  simp only [slice3] at hmem
  obtain ⟨p, hp, rfl⟩ := List.mem_map.mp hmem
  have hifile : i < r.volumeFiles.length := needed_lt_length r hwf zs ze i hi
  have hdata : r.volumeFiles.getD i [] ∈ r.volumeFiles := by
    rw [List.getD_eq_getElem _ _ hifile]
    exact List.getElem_mem hifile
  have hpmem : p ∈ r.volumeFiles.getD i [] := slice1_subset _ _ _ p hp
  have hpshape := hwf.2.2 _ hdata p hpmem
  constructor
  · rw [List.length_map, slice1_length, hpshape.1]
    omega
  · intro row hrow
    obtain ⟨row', hrow', rfl⟩ := List.mem_map.mp hrow
    have : row' ∈ p := slice1_subset _ _ _ row' hrow'
    rw [slice1_length, hpshape.2 row' this]
    omega

/-- Entries of the cache after the parallel load phase: the surviving evicted
entries plus one genuine entry per loaded index. -/
theorem mem_foldl_cons (r : FileReader) (lo : List ℕ) : ∀ (c : Cache) (p : ℕ × A3),
    p ∈ lo.foldl (fun c i => (i, r.volumeFiles.getD i []) :: c) c ↔
      p ∈ c ∨ (p.1 ∈ lo ∧ p.2 = r.volumeFiles.getD p.1 []) := by
  induction lo with
  | nil => simp
  | cons a t ih =>
    intro c p
    rw [List.foldl_cons, ih]
    constructor
    · rintro (h | h)
      · rcases List.mem_cons.mp h with h' | h'
        · subst h'
          exact Or.inr ⟨List.mem_cons_self a t, rfl⟩
        · exact Or.inl h'
      · exact Or.inr ⟨List.mem_cons_of_mem a h.1, h.2⟩
    · rintro (h | ⟨hmem, hval⟩)
      · exact Or.inl (List.mem_cons_of_mem _ h)
      · obtain ⟨pk, pv⟩ := p
        simp only at hmem hval
        rcases List.mem_cons.mp hmem with h' | h'
        · subst h'
          subst hval
          exact Or.inl (List.mem_cons_self _ _)
        · exact Or.inr ⟨h', hval⟩

/-- Cache state returned by a successful `read` (no assumption on the incoming
cache contents). -/
theorem read_ok_cache (r : FileReader) (c : Cache) (lo : List ℕ) (zs ze : ℕ)
    (xs? xe? ys? ye? : Option ℕ) (c2 : Cache) (res : A3)
    (h : r.read c lo zs ze xs? xe? ys? ye? = (c2, Except.ok res)) :
    c2 = lo.foldl (fun c i => (i, r.volumeFiles.getD i []) :: c) (evictedCache r c zs ze) := by
  simp only [FileReader.read] at h
  split at h
  · simp at h
  · split at h
    next hst => simp at h
    next parts hst =>
      split at h
      · simp at h
      next hne =>
        have := congrArg Prod.fst h
        simpa using this.symm

/-- C2 (amended).  For every `FileReader` whose recorded metadata matches its
files in file order (as construction yields when the metadata futures complete
in submission order — see C6) and whose cache holds genuine segment data:
every `read(z0, z1, …)` with `0 ≤ z0 < z1 ≤ total_z` and valid optional y/x
bounds (defaulting to the full extents) that returns successfully returns an
array of shape `(z1-z0, y1-y0, x1-x0)`; in particular its first axis has
length `z1 - z0`. -/
theorem c2_read_shape (r : FileReader) (c : Cache) (lo : List ℕ) (zs ze : ℕ)
    (xs? xe? ys? ye? : Option ℕ) (c2 : Cache) (res : A3)
    (hwf : Wf r) (hc : CacheWf r c) (hz : zs < ze) (hze : ze ≤ r.volumeShape.1)
    (hys : ys?.getD 0 ≤ ye?.getD r.volumeShape.2.1)
    (hye : ye?.getD r.volumeShape.2.1 ≤ r.volumeShape.2.1)
    (hxs : xs?.getD 0 ≤ xe?.getD r.volumeShape.2.2)
    (hxe : xe?.getD r.volumeShape.2.2 ≤ r.volumeShape.2.2)
    (h : r.read c lo zs ze xs? xe? ys? ye? = (c2, Except.ok res)) :
    isShapeB res (ze - zs) (ye?.getD r.volumeShape.2.1 - ys?.getD 0)
      (xe?.getD r.volumeShape.2.2 - xs?.getD 0) = true := by
  obtain ⟨hres, -, -⟩ := read_ok_spec r c lo zs ze xs? xe? ys? ye? c2 res hc h
  rw [hres]
  unfold isShapeB
  refine (Bool.and_eq_true _ _).mpr ⟨?_, ?_⟩
  · rw [direct_needed_length r hwf, Nat.min_eq_right hze]
    simp
  · rw [List.all_eq_true]
    intro plane hplane
    obtain ⟨h1, h2⟩ := direct_mem_shape r hwf zs ze _ _ _ _ hye hxe plane hplane
    refine (Bool.and_eq_true _ _).mpr ⟨by simp [h1], ?_⟩
    rw [List.all_eq_true]
    intro row hrow
    simp [h2 row hrow]

/-- C2 witness: on the two-segment reader `rA` (extents 1 and 2), a full read
`read(0, 3)` with default bounds succeeds with shape `(3, 2, 2)`. -/
theorem c2_read_shape_witness :
    isShapeB ([[[1, 2], [3, 4]], [[5, 6], [7, 8]], [[9, 10], [11, 12]]] : A3)
      (3 - 0) (2 - 0) (2 - 0) = true :=
  c2_read_shape rA [] [1, 0] 0 3 none none none none
    [(0, f0), (1, f1)] [[[1, 2], [3, 4]], [[5, 6], [7, 8]], [[9, 10], [11, 12]]]
    (by decide) (by decide) (by decide) (by decide) (by decide) (by decide) (by decide)
    (by decide) rfl

/-- C3 (confirmed).  For a read whose z-range overlaps two or more segments,
the successful result equals the concatenation along Z, in ascending segment
order, of each overlapping segment's own sub-range (the requested z-range
clipped to the segment and shifted by the segment's recorded z-offset, with
the y/x sub-range applied) — for every completion order of the parallel
segment loads. -/
theorem c3_read_concat (r : FileReader) (c : Cache) (lo : List ℕ) (zs ze : ℕ)
    (xs? xe? ys? ye? : Option ℕ) (c2 : Cache) (res : A3)
    (hc : CacheWf r c) (hperm : lo.Perm (toLoadOf r c zs ze))
    (hseg : 2 ≤ (neededOf r zs ze).length)
    (h : r.read c lo zs ze xs? xe? ys? ye? = (c2, Except.ok res)) :
    res = directParts r (neededOf r zs ze) zs ze (ys?.getD 0) (ye?.getD r.volumeShape.2.1)
      (xs?.getD 0) (xe?.getD r.volumeShape.2.2) :=
  (read_ok_spec r c lo zs ze xs? xe? ys? ye? c2 res hc h).1

/-- C3 witness: reading `[0, 3)` of `rA` overlaps both segments; with the
loads completing in reversed order `[1, 0]` the result still equals the
ascending-order concatenation of the two segments' own sub-ranges. -/
theorem c3_read_concat_witness :
    ([[[1, 2], [3, 4]], [[5, 6], [7, 8]], [[9, 10], [11, 12]]] : A3)
      = directParts rA (neededOf rA 0 3) 0 3 0 2 0 2 :=
  c3_read_concat rA [] [1, 0] 0 3 none none none none
    [(0, f0), (1, f1)] [[[1, 2], [3, 4]], [[5, 6], [7, 8]], [[9, 10], [11, 12]]]
    (by decide) (by decide) (by decide) rfl

/-- C4 (amended).  When the estimated bytes of the still-cached overlapping
segments plus the segments left to load exceed half the budget, `read` raises
`MemoryError` before loading anything: no entry is added, but the entries for
non-overlapping segments have already been evicted — the cache after the raise
is the pre-call cache restricted to the overlapping segments (a subset of the
pre-call cache), not necessarily the pre-call cache itself. -/
theorem c4_memory_amended (r : FileReader) (c : Cache) (lo : List ℕ) (zs ze : ℕ)
    (xs? xe? ys? ye? : Option ℕ)
    (hcond : 2 * (((evictedCache r c zs ze).map (fun p => r.volumeSizes.getD p.1 0)).sum
      + ((toLoadOf r c zs ze).map (fun i => r.volumeSizes.getD i 0)).sum)
      > r.memoryLimitBytes) :
    r.read c lo zs ze xs? xe? ys? ye?
        = (evictedCache r c zs ze, Except.error "MemoryError") ∧
    (evictedCache r c zs ze).all (fun p => decide (p ∈ c)) = true := by
  constructor
  · simp only [FileReader.read]
    rw [if_pos hcond]
  · rw [List.all_eq_true]
    intro p hp
    simp only [decide_eq_true_eq]
    exact (List.mem_filter.mp hp).1

/-- C4 witness: on `r4ce` (segment sizes 600 bytes, budget 1024 bytes) a read
of segment 0 alone trips the check `2 * 600 > 1024` and fails as amended. -/
theorem c4_memory_amended_witness :
    r4ce.read [(1, f1)] [0] 0 1 none none none none
        = (evictedCache r4ce [(1, f1)] 0 1, Except.error "MemoryError") ∧
    (evictedCache r4ce [(1, f1)] 0 1).all (fun p => decide (p ∈ [(1, f1)])) = true :=
  c4_memory_amended r4ce [(1, f1)] [0] 0 1 none none none none (by decide)

/-- C5 (confirmed).  After every successful `read`, the cache keys are exactly
the segment indices whose recorded half-open z-range intersects the requested
range: every cached key overlaps and every overlapping segment is cached. -/
theorem c5_cache_exactly_needed (r : FileReader) (c : Cache) (lo : List ℕ) (zs ze : ℕ)
    (xs? xe? ys? ye? : Option ℕ) (c2 : Cache) (res : A3)
    (hperm : lo.Perm (toLoadOf r c zs ze))
    (h : r.read c lo zs ze xs? xe? ys? ye? = (c2, Except.ok res)) :
    (c2.map (·.1)).all (fun i => decide (i ∈ neededOf r zs ze)) = true ∧
    (neededOf r zs ze).all (fun i => cacheHas c2 i) = true := by
  have hc2 := read_ok_cache r c lo zs ze xs? xe? ys? ye? c2 res h
  subst hc2
  constructor
  · rw [List.all_eq_true]
    intro k hk
    obtain ⟨p, hp, rfl⟩ := List.mem_map.mp hk
    simp only [decide_eq_true_eq]
    rcases (mem_foldl_cons r lo _ p).mp hp with hmem | ⟨hmem, -⟩
    · have := (List.mem_filter.mp hmem).2
      simpa using this
    · have := hperm.mem_iff.mp hmem
      exact (List.mem_filter.mp this).1
  · rw [List.all_eq_true]
    intro i hi
    rw [cacheHas, List.any_eq_true]
    by_cases hcached : cacheHas (evictedCache r c zs ze) i
    · rw [cacheHas, List.any_eq_true] at hcached
      obtain ⟨p, hp, hkey⟩ := hcached
      exact ⟨p, (mem_foldl_cons r lo _ p).mpr (Or.inl hp), hkey⟩
    · have hload : i ∈ toLoadOf r c zs ze := by
        rw [toLoadOf, List.mem_filter]
        exact ⟨hi, by simpa using hcached⟩
      refine ⟨(i, r.volumeFiles.getD i []), ?_, by simp⟩
      exact (mem_foldl_cons r lo _ _).mpr (Or.inr ⟨hperm.mem_iff.mpr hload, rfl⟩)

/-- C5 witness: after the successful full read of `rA` under completion order
`[1, 0]`, the cache keys are exactly the two overlapping segments. -/
theorem c5_cache_exactly_needed_witness :
    (([(0, f0), (1, f1)] : Cache).map (·.1)).all
        (fun i => decide (i ∈ neededOf rA 0 3)) = true ∧
    (neededOf rA 0 3).all (fun i => cacheHas [(0, f0), (1, f1)] i) = true :=
  c5_cache_exactly_needed rA [] [1, 0] 0 3 none none none none
    [(0, f0), (1, f1)] [[[1, 2], [3, 4]], [[5, 6], [7, 8]], [[9, 10], [11, 12]]]
    (by decide) rfl

/-- C10 (confirmed).  The zarr metadata probe records a size estimate of 0
regardless of the store's shape and dtype; consequently a read all of whose
overlapping segments carry that zero estimate contributes nothing to the
cached-plus-to-load accounting and can never raise the memory-exhaustion
error, whatever the memory budget. -/
theorem c10_zarr_zero_size_no_memory_error :
    (∀ sh dt, (read_zarr_meta sh dt).2.2 = 0) ∧
    ∀ (r : FileReader) (c : Cache) (lo : List ℕ) (zs ze : ℕ)
      (xs? xe? ys? ye? : Option ℕ),
      (∀ i ∈ neededOf r zs ze, r.volumeSizes.getD i 0 = 0) →
      (r.read c lo zs ze xs? xe? ys? ye?).2 ≠ Except.error "MemoryError" := by
  refine ⟨fun sh dt => rfl, ?_⟩
  intro r c lo zs ze xs? xe? ys? ye? hz
  have hcur : ((evictedCache r c zs ze).map (fun p => r.volumeSizes.getD p.1 0)).sum = 0 := by
    apply List.sum_eq_zero
    intro x hx
    obtain ⟨p, hp, rfl⟩ := List.mem_map.mp hx
    have hpn : p.1 ∈ neededOf r zs ze := by
      have := (List.mem_filter.mp hp).2
      simpa using this
    exact hz p.1 hpn
  have hload : ((toLoadOf r c zs ze).map (fun i => r.volumeSizes.getD i 0)).sum = 0 := by
    apply List.sum_eq_zero
    intro x hx
    obtain ⟨i, hi, rfl⟩ := List.mem_map.mp hx
    exact hz i (List.mem_filter.mp hi).1
  simp only [FileReader.read]
  rw [if_neg (by rw [hcur, hload]; omega)]
  split
  · intro hcontra
    simp only [Prod.snd] at hcontra
    have := Except.error.inj hcontra
    exact absurd this (by decide)
  · split
    · intro hcontra
      simp only [Prod.snd] at hcontra
      have := Except.error.inj hcontra
      exact absurd this (by decide)
    · intro hcontra
      simp only [Prod.snd] at hcontra
      exact Except.noConfusion hcontra

/-- C10 witness: the zarr-backed reader `rZ` (recorded size 0) never trips the
memory check even with a memory budget of 0 bytes. -/
theorem c10_zarr_zero_size_witness :
    (read_zarr_meta (1, 2, 2) "uint16").2.2 = 0 ∧
    (rZ.read [] [0] 0 1 none none none none).2 ≠ Except.error "MemoryError" :=
  ⟨c10_zarr_zero_size_no_memory_error.1 (1, 2, 2) "uint16",
   c10_zarr_zero_size_no_memory_error.2 rZ [] [0] 0 1 none none none none (by decide)⟩

/-! Store lemmas. -/

/-- Filtering with a predicate implied by the search predicate does not change
`find?`. -/
theorem find?_filter_of_imp {α : Type} (l : List α) (p q : α → Bool)
    (h : ∀ x, q x = true → p x = true) : (l.filter p).find? q = l.find? q := by
  induction l with
  | nil => rfl
  | cons a t ih =>
    rw [List.filter_cons]
    by_cases hq : q a = true
    · rw [if_pos (h a hq), List.find?_cons_of_pos _ hq, List.find?_cons_of_pos _ hq]
    · have hq' : q a = false := by simpa using hq
      by_cases hp : p a = true
      · rw [if_pos hp, List.find?_cons_of_neg _ (by simp [hq']),
          List.find?_cons_of_neg _ (by simp [hq']), ih]
      · rw [if_neg hp, ih, List.find?_cons_of_neg _ (by simp [hq'])]

theorem storeGet_storeSet_same (s : Store) (k : DsKey) (d : Dataset) :
    storeGet (storeSet s k d) k = some d := by
  unfold storeGet storeSet
  rw [List.find?_cons_of_pos _ (by simp)]
  rfl

theorem storeGet_storeSet_other (s : Store) (k k' : DsKey) (d : Dataset) (h : k' ≠ k) :
    storeGet (storeSet s k d) k' = storeGet s k' := by
  unfold storeGet storeSet
  rw [List.find?_cons_of_neg _ (by simp [h.symm]),
    find?_filter_of_imp s _ _ (fun x hx => ?_)]
  have : x.1 = k' := by simpa using hx
  simp [this, h]

theorem storeGet_filter_temp (s : Store) (k : DsKey) (h : k ≠ DsKey.temp) :
    storeGet (s.filter (fun p => !decide (p.1 = DsKey.temp))) k = storeGet s k := by
  unfold storeGet
  rw [find?_filter_of_imp s _ _ (fun x hx => ?_)]
  have : x.1 = k := by simpa using hx
  simp [this, h]

theorem levelInitStore_get_level (w : FileWriter) (s : Store) (level : ℕ)
    (cur tgt : ℕ × ℕ × ℕ) :
    storeGet (levelInitStore w s level cur tgt) (DsKey.level level)
      = some { shape := tgt, data := zeros3 tgt.1 tgt.2.1 tgt.2.2 } := by
  unfold levelInitStore
  split
  · rw [storeGet_storeSet_other _ _ _ _ (by intro hc; cases hc), storeGet_storeSet_same]
  · rw [storeGet_storeSet_same]

theorem levelInitStore_get_other (w : FileWriter) (s : Store) (level : ℕ)
    (cur tgt : ℕ × ℕ × ℕ) (k : DsKey) (h1 : k ≠ DsKey.level level) (h2 : k ≠ DsKey.temp) :
    storeGet (levelInitStore w s level cur tgt) k = storeGet s k := by
  unfold levelInitStore
  split
  · rw [storeGet_storeSet_other _ _ _ _ h2, storeGet_storeSet_other _ _ _ _ h1]
  · rw [storeGet_storeSet_other _ _ _ _ h1]

theorem pass2Loop_shape (w : FileWriter) (temp : A3) (tz tx order ty : ℕ) :
    ∀ (l : List ℕ) (d : Dataset), (pass2Loop w temp tz tx order ty l d).shape = d.shape := by
  intro l
  induction l with
  | nil => intro d; rfl
  | cons yst rest ih => intro d; rw [pass2Loop, ih]

/-- A successful `_resize_and_write_level` run: the level dataset holds the
pass-2 output over the pass-1 staging buffer (with the declared target shape),
and every other key except `'temp'` is untouched. -/
theorem rawl_ok_get (w : FileWriter) (s : Store) (level : ℕ)
    (cur tgt : ℕ × ℕ × ℕ) (order : ℕ) (s' : Store)
    (h : resizeAndWriteLevel w s level cur tgt order = Except.ok s') :
    ∃ temp,
      pass1Loop w (levelInitStore w s level cur tgt) level tgt.2.1 tgt.2.2 order cur.1
          (chunkStarts cur.1 w.chunkSize) (zeros3 cur.1 tgt.2.1 tgt.2.2) = Except.ok temp ∧
      storeGet s' (DsKey.level level)
        = some (pass2Loop w temp tgt.1 tgt.2.2 order tgt.2.1
            (chunkStarts tgt.2.1 w.chunkSize)
            { shape := tgt, data := zeros3 tgt.1 tgt.2.1 tgt.2.2 }) ∧
      (∀ k, k ≠ DsKey.level level → k ≠ DsKey.temp → storeGet s' k = storeGet s k) := by
  simp only [resizeAndWriteLevel] at h
  split at h
  · simp at h
  next temp hpass =>
    split at h
    next hget => simp at h
    next d0 hget =>
      have hs3 : storeGet
          (if (!canUseMemory cur tgt.2.1 tgt.2.2 w.itemSize w.memoryThresholdBytes) = true then
            storeSet (levelInitStore w s level cur tgt) DsKey.temp
              { shape := (cur.1, tgt.2.1, tgt.2.2), data := temp }
          else levelInitStore w s level cur tgt) (DsKey.level level)
          = some { shape := tgt, data := zeros3 tgt.1 tgt.2.1 tgt.2.2 } := by
        by_cases hbb :
            (!canUseMemory cur tgt.2.1 tgt.2.2 w.itemSize w.memoryThresholdBytes) = true
        · rw [if_pos hbb, storeGet_storeSet_other _ _ _ _ (by intro hc; cases hc),
            levelInitStore_get_level]
        · rw [if_neg hbb, levelInitStore_get_level]
      rw [hget] at hs3
      have hd0 : d0 = { shape := tgt, data := zeros3 tgt.1 tgt.2.1 tgt.2.2 } := by
        injection hs3
      simp only [Except.ok.injEq] at h
      refine ⟨temp, hpass, ?_, ?_⟩
      · rw [← h, hd0, storeGet_storeSet_same]
      · intro k hk1 hk2
        rw [← h, storeGet_storeSet_other _ _ _ _ hk1]
        by_cases hbb :
            (!canUseMemory cur tgt.2.1 tgt.2.2 w.itemSize w.memoryThresholdBytes) = true
        · rw [if_pos hbb, storeGet_storeSet_other _ _ _ _ hk2]
          exact levelInitStore_get_other w s level cur tgt k hk1 hk2
        · rw [if_neg hbb]
          exact levelInitStore_get_other w s level cur tgt k hk1 hk2

/-- Pass 1 reads the backing store only through the previous level's key. -/
theorem pass1_congr (w : FileWriter) (sA sB : Store) (level ty tx order cz : ℕ)
    (hprev : storeGet sA (DsKey.level (level - 1)) = storeGet sB (DsKey.level (level - 1))) :
    ∀ (l : List ℕ) (temp : A3),
      pass1Loop w sA level ty tx order cz l temp
        = pass1Loop w sB level ty tx order cz l temp := by
  intro l
  induction l with
  | nil => intro temp; rfl
  | cons zst rest ih =>
    intro temp
    simp only [pass1Loop]
    rw [hprev]
    split
    · rfl
    · exact ih _

/-- Behavior of the writer's chunk reads: on success the block is the direct
per-segment concatenation of the requested z-range at full y/x extent
(independently of the incoming cache contents), and the returned cache is
again genuine. -/
theorem readDet_ok (r : FileReader) (c : Cache) (zs ze : ℕ) (c' : Cache) (v : A3)
    (hc : CacheWf r c) (h : readDet r c zs ze = (c', Except.ok v)) :
    v = directParts r (neededOf r zs ze) zs ze 0 r.volumeShape.2.1 0 r.volumeShape.2.2 ∧
    CacheWf r c' := by
  have hspec := read_ok_spec r c (toLoadOf r c zs ze) zs ze none none none none c' v hc h
  have hcache := read_ok_cache r c (toLoadOf r c zs ze) zs ze none none none none c' v h
  refine ⟨hspec.1, ?_⟩
  rw [hcache]
  exact cacheWf_foldl r _ _ (cacheWf_filter r c hc _)

theorem fastLoop_shape (w : FileWriter) (cz : ℕ) : ∀ (l : List ℕ) (d : Dataset) (c : Cache)
    (d' : Dataset) (c' : Cache), fastLoop w cz l (d, c) = Except.ok (d', c') →
    d'.shape = d.shape := by
  intro l
  induction l with
  | nil =>
    intro d c d' c' h
    simp only [fastLoop, Except.ok.injEq] at h
    cases h
    rfl
  | cons zst rest ih =>
    intro d c d' c' h
    simp only [fastLoop] at h
    split at h
    · simp at h
    next c2 block heq =>
      simpa using ih _ _ _ _ h

/-- The raw-copy loop is deterministic in the dataset given genuine caches:
two runs from equal datasets produce equal datasets, whatever each run's cache
held, and both final caches are genuine again. -/
theorem fastLoop_congr (w : FileWriter) (cz : ℕ) : ∀ (l : List ℕ) (d : Dataset)
    (cA cB : Cache) (rA rB : Dataset × Cache),
    CacheWf w.reader cA → CacheWf w.reader cB →
    fastLoop w cz l (d, cA) = Except.ok rA → fastLoop w cz l (d, cB) = Except.ok rB →
    rA.1 = rB.1 ∧ CacheWf w.reader rA.2 ∧ CacheWf w.reader rB.2 := by
  intro l
  induction l with
  | nil =>
    intro d cA cB rA rB hcA hcB hA hB
    simp only [fastLoop, Except.ok.injEq] at hA hB
    rw [← hA, ← hB]
    exact ⟨rfl, hcA, hcB⟩
  | cons zst rest ih =>
    intro d cA cB rA rB hcA hcB hA hB
    simp only [fastLoop] at hA hB
    split at hA
    · simp at hA
    next cA2 blockA heqA =>
      split at hB
      · simp at hB
      next cB2 blockB heqB =>
        obtain ⟨hvA, hcA2⟩ := readDet_ok w.reader cA _ _ cA2 blockA hcA heqA
        obtain ⟨hvB, hcB2⟩ := readDet_ok w.reader cB _ _ cB2 blockB hcB heqB
        have hblock : blockA = blockB := by rw [hvA, hvB]
        rw [hblock] at hA
        exact ih _ cA2 cB2 rA rB hcA2 hcB2 hA hB

/-- A successful `_resize_level_zero`: level 0 exists with the configured
full-resolution shape; every other key except `'temp'` is untouched. -/
theorem rlz_ok (w : FileWriter) (s : Store) (cache : Cache) (s' : Store) (c' : Cache)
    (h : resizeLevelZero w s cache = Except.ok (s', c')) :
    (∃ d, storeGet s' (DsKey.level 0) = some d ∧ d.shape = w.fullResShape) ∧
    (∀ k, k ≠ DsKey.level 0 → k ≠ DsKey.temp → storeGet s' k = storeGet s k) := by
  simp only [resizeLevelZero] at h
  split at h
  · split at h
    · simp at h
    next p heq =>
      simp only [Except.ok.injEq] at h
      cases h
      refine ⟨⟨p.1, storeGet_storeSet_same s (DsKey.level 0) p.1, ?_⟩, ?_⟩
      · obtain ⟨d, c2⟩ := p
        simpa using fastLoop_shape w _ _ _ _ _ _ heq
      · intro k hk1 _
        exact storeGet_storeSet_other s (DsKey.level 0) k p.1 hk1
  · cases heq : resizeAndWriteLevel w s 0 w.reader.volumeShape w.fullResShape
        w.resizeOrder with
    | error e => rw [heq] at h; simp at h
    | ok s2 =>
      rw [heq] at h
      simp only [Except.ok.injEq] at h
      cases h
      obtain ⟨temp, hp, hlevel, hother⟩ :=
        rawl_ok_get w s 0 w.reader.volumeShape w.fullResShape w.resizeOrder s' heq
      exact ⟨⟨_, hlevel, by rw [pass2Loop_shape]⟩, hother⟩

/-- A successful `_resize_and_write` step: level 0 gets the full-resolution
shape, level k >= 1 gets the elementwise floor division of level k-1's
recorded shape; other keys (except `'temp'`) are untouched. -/
theorem raw_ok (w : FileWriter) (s : Store) (cache : Cache) (level : ℕ) (s' : Store)
    (c' : Cache) (h : resizeAndWrite w s cache level = Except.ok (s', c')) :
    (level = 0 → ∃ d, storeGet s' (DsKey.level 0) = some d ∧ d.shape = w.fullResShape) ∧
    (level ≠ 0 → ∃ prev d, storeGet s (DsKey.level (level - 1)) = some prev ∧
      storeGet s' (DsKey.level level) = some d ∧
      d.shape = shapeDiv prev.shape w.resizeFactor) ∧
    (∀ k, k ≠ DsKey.level level → k ≠ DsKey.temp → storeGet s' k = storeGet s k) := by
  simp only [resizeAndWrite] at h
  split at h
  next hl0 =>
    subst hl0
    obtain ⟨hex, hother⟩ := rlz_ok w s cache s' c' h
    exact ⟨fun _ => hex, fun hne => absurd rfl hne, hother⟩
  next hl0 =>
    split at h
    · simp at h
    next prev hprev =>
      cases heq : resizeAndWriteLevel w s level prev.shape
          (prev.shape.1 / w.resizeFactor, prev.shape.2.1 / w.resizeFactor,
            prev.shape.2.2 / w.resizeFactor) w.resizeOrder with
      | error e => rw [heq] at h; simp at h
      | ok s2 =>
        rw [heq] at h
        simp only [Except.ok.injEq] at h
        cases h
        obtain ⟨temp, hp, hlevel, hother⟩ := rawl_ok_get w s level prev.shape _ _ s' heq
        refine ⟨fun h0 => absurd h0 hl0, fun _ => ⟨prev, _, hprev, hlevel, ?_⟩, hother⟩
        rw [pass2Loop_shape]
        rfl

theorem dskey_level_ne (a b : ℕ) (h : a ≠ b) : DsKey.level a ≠ DsKey.level b := by
  intro hc
  injection hc with hc'
  exact h hc'

theorem dskey_level_ne_temp (a : ℕ) : DsKey.level a ≠ DsKey.temp := by
  intro hc
  cases hc

/-- Two successful level-0 runs over different initial stores and (genuine)
caches produce the same level-0 dataset, and leave genuine caches. -/
theorem rlz_congr (w : FileWriter) (sA sB : Store) (cA cB : Cache)
    (tA tB : Store) (cA' cB' : Cache)
    (hcA : CacheWf w.reader cA) (hcB : CacheWf w.reader cB)
    (hA : resizeLevelZero w sA cA = Except.ok (tA, cA'))
    (hB : resizeLevelZero w sB cB = Except.ok (tB, cB')) :
    storeGet tA (DsKey.level 0) = storeGet tB (DsKey.level 0) ∧
    CacheWf w.reader cA' ∧ CacheWf w.reader cB' := by
  simp only [resizeLevelZero] at hA hB
  by_cases hsh : w.reader.volumeShape = w.fullResShape
  · rw [if_pos hsh] at hA hB
    cases hflA : fastLoop w w.reader.volumeShape.1 (chunkStarts w.reader.volumeShape.1 w.chunkSize)
        ({ shape := w.fullResShape,
           data := zeros3 w.fullResShape.1 w.fullResShape.2.1 w.fullResShape.2.2 }, cA) with
    | error e => rw [hflA] at hA; simp at hA
    | ok pA =>
      rw [hflA] at hA
      simp only [Except.ok.injEq] at hA
      cases hflB : fastLoop w w.reader.volumeShape.1
          (chunkStarts w.reader.volumeShape.1 w.chunkSize)
          ({ shape := w.fullResShape,
             data := zeros3 w.fullResShape.1 w.fullResShape.2.1 w.fullResShape.2.2 }, cB) with
      | error e => rw [hflB] at hB; simp at hB
      | ok pB =>
        rw [hflB] at hB
        simp only [Except.ok.injEq] at hB
        obtain ⟨hd, hcA2, hcB2⟩ := fastLoop_congr w w.reader.volumeShape.1
          (chunkStarts w.reader.volumeShape.1 w.chunkSize) _ cA cB pA pB hcA hcB hflA hflB
        have h1A := congrArg Prod.fst hA
        have h2A := congrArg Prod.snd hA
        have h1B := congrArg Prod.fst hB
        have h2B := congrArg Prod.snd hB
        simp only at h1A h2A h1B h2B
        rw [← h1A, ← h1B, ← h2A, ← h2B]
        refine ⟨?_, hcA2, hcB2⟩
        rw [storeGet_storeSet_same, storeGet_storeSet_same, hd]
  · rw [if_neg hsh] at hA hB
    cases hrA : resizeAndWriteLevel w sA 0 w.reader.volumeShape w.fullResShape
        w.resizeOrder with
    | error e => rw [hrA] at hA; simp at hA
    | ok s2A =>
      rw [hrA] at hA
      simp only [Except.ok.injEq] at hA
      cases hrB : resizeAndWriteLevel w sB 0 w.reader.volumeShape w.fullResShape
          w.resizeOrder with
      | error e => rw [hrB] at hB; simp at hB
      | ok s2B =>
        rw [hrB] at hB
        simp only [Except.ok.injEq] at hB
        have h1A := congrArg Prod.fst hA
        have h2A := congrArg Prod.snd hA
        have h1B := congrArg Prod.fst hB
        have h2B := congrArg Prod.snd hB
        simp only at h1A h2A h1B h2B
        obtain ⟨tempA, hpA, hlevelA, -⟩ :=
          rawl_ok_get w sA 0 w.reader.volumeShape w.fullResShape w.resizeOrder s2A hrA
        obtain ⟨tempB, hpB, hlevelB, -⟩ :=
          rawl_ok_get w sB 0 w.reader.volumeShape w.fullResShape w.resizeOrder s2B hrB
        have hinit : storeGet (levelInitStore w sA 0 w.reader.volumeShape w.fullResShape)
            (DsKey.level (0 - 1))
            = storeGet (levelInitStore w sB 0 w.reader.volumeShape w.fullResShape)
              (DsKey.level (0 - 1)) := by
          show storeGet _ (DsKey.level 0) = storeGet _ (DsKey.level 0)
          rw [levelInitStore_get_level, levelInitStore_get_level]
        have hpass := pass1_congr w _ _ 0 w.fullResShape.2.1 w.fullResShape.2.2
          w.resizeOrder w.reader.volumeShape.1 hinit
          (chunkStarts w.reader.volumeShape.1 w.chunkSize)
          (zeros3 w.reader.volumeShape.1 w.fullResShape.2.1 w.fullResShape.2.2)
        have htemp : (Except.ok tempA : Except String A3) = Except.ok tempB := by
          rw [← hpA, hpass, hpB]
        injection htemp with htemp'
        rw [← h1A, ← h1B, ← h2A, ← h2B]
        refine ⟨?_, hcA, hcB⟩
        rw [hlevelA, hlevelB, htemp']

/-- Two successful `_resize_and_write` steps at the same level, starting from
stores that agree on all earlier level keys and from genuine caches, agree on
all level keys up to this level and leave genuine caches. -/
theorem raw_congr (w : FileWriter) (sA sB : Store) (cA cB : Cache) (level : ℕ)
    (tA tB : Store) (cA' cB' : Cache)
    (hcA : CacheWf w.reader cA) (hcB : CacheWf w.reader cB)
    (hprev : ∀ j, j < level → storeGet sA (DsKey.level j) = storeGet sB (DsKey.level j))
    (hA : resizeAndWrite w sA cA level = Except.ok (tA, cA'))
    (hB : resizeAndWrite w sB cB level = Except.ok (tB, cB')) :
    (∀ j, j ≤ level → storeGet tA (DsKey.level j) = storeGet tB (DsKey.level j)) ∧
    CacheWf w.reader cA' ∧ CacheWf w.reader cB' := by
  have hokA := raw_ok w sA cA level tA cA' hA
  have hokB := raw_ok w sB cB level tB cB' hB
  have hlower : ∀ j, j < level → storeGet tA (DsKey.level j) = storeGet tB (DsKey.level j) := by
    intro j hj
    rw [hokA.2.2 (DsKey.level j) (dskey_level_ne j level (by omega)) (dskey_level_ne_temp j),
      hokB.2.2 (DsKey.level j) (dskey_level_ne j level (by omega)) (dskey_level_ne_temp j)]
    exact hprev j hj
  simp only [resizeAndWrite] at hA hB
  by_cases hl0 : level = 0
  · subst hl0
    rw [if_pos rfl] at hA hB
    obtain ⟨h0, hcA', hcB'⟩ := rlz_congr w sA sB cA cB tA tB cA' cB' hcA hcB hA hB
    refine ⟨fun j hj => ?_, hcA', hcB'⟩
    have : j = 0 := by omega
    subst this
    exact h0
  · rw [if_neg hl0] at hA hB
    split at hA
    · simp at hA
    next prevA hgA =>
      split at hB
      next hgB =>
        exfalso
        rw [hprev (level - 1) (by omega), hgB] at hgA
        simp at hgA
      next prevB hgB =>
        have hprevEq : prevB = prevA := by
          rw [hprev (level - 1) (by omega), hgB] at hgA
          exact Option.some.inj hgA
        subst hprevEq
        cases hrA : resizeAndWriteLevel w sA level prevB.shape
            (prevB.shape.1 / w.resizeFactor, prevB.shape.2.1 / w.resizeFactor,
              prevB.shape.2.2 / w.resizeFactor) w.resizeOrder with
        | error e => rw [hrA] at hA; simp at hA
        | ok s2A =>
          rw [hrA] at hA
          simp only [Except.ok.injEq] at hA
          cases hrB : resizeAndWriteLevel w sB level prevB.shape
              (prevB.shape.1 / w.resizeFactor, prevB.shape.2.1 / w.resizeFactor,
                prevB.shape.2.2 / w.resizeFactor) w.resizeOrder with
          | error e => rw [hrB] at hB; simp at hB
          | ok s2B =>
            rw [hrB] at hB
            simp only [Except.ok.injEq] at hB
            have h1A := congrArg Prod.fst hA
            have h2A := congrArg Prod.snd hA
            have h1B := congrArg Prod.fst hB
            have h2B := congrArg Prod.snd hB
            simp only at h1A h2A h1B h2B
            obtain ⟨tempA, hpA, hlevelA, -⟩ := rawl_ok_get w sA level prevB.shape _ _ s2A hrA
            obtain ⟨tempB, hpB, hlevelB, -⟩ := rawl_ok_get w sB level prevB.shape _ _ s2B hrB
            have hinit : storeGet (levelInitStore w sA level prevB.shape
                (prevB.shape.1 / w.resizeFactor, prevB.shape.2.1 / w.resizeFactor,
                  prevB.shape.2.2 / w.resizeFactor)) (DsKey.level (level - 1))
                = storeGet (levelInitStore w sB level prevB.shape
                  (prevB.shape.1 / w.resizeFactor, prevB.shape.2.1 / w.resizeFactor,
                    prevB.shape.2.2 / w.resizeFactor)) (DsKey.level (level - 1)) := by
              rw [levelInitStore_get_other _ _ _ _ _ _
                  (dskey_level_ne (level - 1) level (by omega)) (dskey_level_ne_temp _),
                levelInitStore_get_other _ _ _ _ _ _
                  (dskey_level_ne (level - 1) level (by omega)) (dskey_level_ne_temp _)]
              exact hprev (level - 1) (by omega)
            have hpass := pass1_congr w _ _ level
              (prevB.shape.1 / w.resizeFactor, prevB.shape.2.1 / w.resizeFactor,
                prevB.shape.2.2 / w.resizeFactor).2.1
              (prevB.shape.1 / w.resizeFactor, prevB.shape.2.1 / w.resizeFactor,
                prevB.shape.2.2 / w.resizeFactor).2.2
              w.resizeOrder prevB.shape.1 hinit
              (chunkStarts prevB.shape.1 w.chunkSize)
              (zeros3 prevB.shape.1
                (prevB.shape.1 / w.resizeFactor, prevB.shape.2.1 / w.resizeFactor,
                  prevB.shape.2.2 / w.resizeFactor).2.1
                (prevB.shape.1 / w.resizeFactor, prevB.shape.2.1 / w.resizeFactor,
                  prevB.shape.2.2 / w.resizeFactor).2.2)
            have htemp : (Except.ok tempA : Except String A3) = Except.ok tempB := by
              rw [← hpA, hpass, hpB]
            injection htemp with htemp'
            refine ⟨fun j hj => ?_, by rw [← h2A]; exact hcA, by rw [← h2B]; exact hcB⟩
            by_cases hjl : j = level
            · subst hjl
              rw [← h1A, ← h1B, hlevelA, hlevelB, htemp']
            · exact hlower j (by omega)

/-- Shape invariant through the level loop: after successfully processing
levels `[a, a+m)`, every processed level dataset exists with the derived
pyramid shape. -/
theorem processLevels_shape (w : FileWriter) : ∀ (m a : ℕ) (s : Store) (cache : Cache)
    (t : Store) (c' : Cache),
    processLevels w (List.range' a m) (s, cache) = Except.ok (t, c') →
    (∀ j, j < a → ∃ d, storeGet s (DsKey.level j) = some d ∧
      d.shape = levelShape w.fullResShape w.resizeFactor j) →
    ∀ j, j < a + m → ∃ d, storeGet t (DsKey.level j) = some d ∧
      d.shape = levelShape w.fullResShape w.resizeFactor j := by
  intro m
  induction m with
  | zero =>
    intro a s cache t c' h hinv j hj
    simp only [List.range', processLevels, Except.ok.injEq] at h
    obtain ⟨h1, h2⟩ := Prod.mk.injEq _ _ _ _ |>.mp h.symm
    rw [h1]
    exact hinv j (by omega)
  | succ m ih =>
    intro a s cache t c' h hinv j hj
    rw [List.range'_succ a m 1] at h
    simp only [processLevels] at h
    cases hra : resizeAndWrite w s cache a with
    | error e => rw [hra] at h; simp at h
    | ok p =>
      rw [hra] at h
      obtain ⟨s1, c1⟩ := p
      have hokA := raw_ok w s cache a s1 c1 hra
      have hinv1 : ∀ j, j < a + 1 → ∃ d, storeGet s1 (DsKey.level j) = some d ∧
          d.shape = levelShape w.fullResShape w.resizeFactor j := by
        intro j hj1
        by_cases hja : j = a
        · subst hja
          by_cases hj0 : j = 0
          · subst hj0
            obtain ⟨d, hd, hshape⟩ := hokA.1 rfl
            exact ⟨d, hd, hshape⟩
          · obtain ⟨prev, d, hgprev, hgd, hshape⟩ := hokA.2.1 hj0
            obtain ⟨dprev, hdprev, hdprevshape⟩ := hinv (j - 1) (by omega)
            rw [hgprev] at hdprev
            have hpd : prev = dprev := Option.some.inj hdprev
            refine ⟨d, hgd, ?_⟩
            rw [hshape, hpd, hdprevshape]
            have hj' : j = (j - 1) + 1 := by omega
            conv_rhs => rw [hj']
            rfl
        · obtain ⟨d, hd, hshape⟩ := hinv j (by omega)
          refine ⟨d, ?_, hshape⟩
          rw [hokA.2.2 (DsKey.level j) (dskey_level_ne j a (by omega)) (dskey_level_ne_temp j)]
          exact hd
      exact ih (a + 1) s1 c1 t c' h hinv1 j (by omega)

/-- Level-dataset agreement through the level loop: two successful runs over
stores agreeing on already-processed level keys, with genuine caches, agree on
all processed level keys. -/
theorem processLevels_congr (w : FileWriter) : ∀ (m a : ℕ) (sA sB : Store) (cA cB : Cache)
    (tA tB : Store) (cA' cB' : Cache),
    CacheWf w.reader cA → CacheWf w.reader cB →
    processLevels w (List.range' a m) (sA, cA) = Except.ok (tA, cA') →
    processLevels w (List.range' a m) (sB, cB) = Except.ok (tB, cB') →
    (∀ j, j < a → storeGet sA (DsKey.level j) = storeGet sB (DsKey.level j)) →
    ∀ j, j < a + m → storeGet tA (DsKey.level j) = storeGet tB (DsKey.level j) := by
  intro m
  induction m with
  | zero =>
    intro a sA sB cA cB tA tB cA' cB' hcA hcB hA hB hagree j hj
    simp only [List.range', processLevels, Except.ok.injEq] at hA hB
    obtain ⟨h1A, -⟩ := Prod.mk.injEq _ _ _ _ |>.mp hA.symm
    obtain ⟨h1B, -⟩ := Prod.mk.injEq _ _ _ _ |>.mp hB.symm
    rw [h1A, h1B]
    exact hagree j (by omega)
  | succ m ih =>
    intro a sA sB cA cB tA tB cA' cB' hcA hcB hA hB hagree j hj
    rw [List.range'_succ a m 1] at hA hB
    simp only [processLevels] at hA hB
    cases hraA : resizeAndWrite w sA cA a with
    | error e => rw [hraA] at hA; simp at hA
    | ok pA =>
      rw [hraA] at hA
      obtain ⟨sA1, cA1⟩ := pA
      cases hraB : resizeAndWrite w sB cB a with
      | error e => rw [hraB] at hB; simp at hB
      | ok pB =>
        rw [hraB] at hB
        obtain ⟨sB1, cB1⟩ := pB
        obtain ⟨hstep, hcA1, hcB1⟩ := raw_congr w sA sB cA cB a sA1 sB1 cA1 cB1
          hcA hcB hagree hraA hraB
        exact ih (a + 1) sA1 sB1 cA1 cB1 tA tB cA' cB' hcA1 hcB1 hA hB
          (fun j hj1 => hstep j (by omega)) j (by omega)

/-- Unfolding a successful `write()`: the level loop succeeded, the final
group's level datasets are those of the loop's final store (the `'temp'`
deletion touches no level key), and the multiscale metadata was stored as the
group's attributes. -/
theorem write_ok_parts (w : FileWriter) (g : ZarrGroup) (cache : Cache) (g' : ZarrGroup)
    (h : w.write g cache = Except.ok g') :
    ∃ s c', processLevels w (List.range w.nLevel) (g.datasets, cache) = Except.ok (s, c') ∧
      (∀ k, storeGet g'.datasets (DsKey.level k) = storeGet s (DsKey.level k)) ∧
      g'.attrs = some (writeMultiscaleMetadata w) := by
  simp only [FileWriter.write] at h
  cases hp : processLevels w (List.range w.nLevel) (g.datasets, cache) with
  | error e => rw [hp] at h; simp at h
  | ok p =>
    rw [hp] at h
    obtain ⟨s, c'⟩ := p
    simp only [Except.ok.injEq] at h
    refine ⟨s, c', rfl, ?_, ?_⟩
    · intro k
      rw [← h]
      dsimp only
      split
      · exact storeGet_filter_temp s (DsKey.level k) (dskey_level_ne_temp k)
      · rfl
    · rw [← h]

/-- C7 (amended).  No level is skipped: `write()` recreates every level
dataset (`create_dataset(…, overwrite=True)`) on every invocation, so the
resulting level datasets do not depend on what already existed at the output
path.  Consequently two successful `write()` runs of the same writer — in
particular a first run and an immediately repeated second run on the same
output path — produce identical level datasets (the repeated run redoes all
the level work rather than skipping existing datasets). -/
theorem c7_write_levels_independent :
    ∀ (w : FileWriter) (gA gB : ZarrGroup) (cA cB : Cache) (gA' gB' : ZarrGroup),
      CacheWf w.reader cA → CacheWf w.reader cB →
      w.write gA cA = Except.ok gA' → w.write gB cB = Except.ok gB' →
      ∀ k, k < w.nLevel →
        storeGet gA'.datasets (DsKey.level k) = storeGet gB'.datasets (DsKey.level k) := by
  intro w gA gB cA cB gA' gB' hcA hcB hA hB k hk
  obtain ⟨sA, cA2, hpA, hkeysA, -⟩ := write_ok_parts w gA cA gA' hA
  obtain ⟨sB, cB2, hpB, hkeysB, -⟩ := write_ok_parts w gB cB gB' hB
  rw [hkeysA k, hkeysB k]
  exact processLevels_congr w w.nLevel 0 gA.datasets gB.datasets cA cB sA sB cA2 cB2
    hcA hcB (by rw [← List.range_eq_range']; exact hpA)
    (by rw [← List.range_eq_range']; exact hpB)
    (fun j hj => absurd hj (by omega)) k (by omega)

/-- C7 witness: `wW.write` over the empty store and over the store already
holding junk at level 0 produce the same level-0 dataset. -/
theorem c7_write_levels_independent_witness :
    storeGet gW.datasets (DsKey.level 0) = storeGet gJunk.datasets (DsKey.level 0) :=
  c7_write_levels_independent wW { datasets := [], attrs := none }
    { datasets := sJunk, attrs := none } [] [] gW gJunk
    (by decide) (by decide) rfl rfl 0 (by decide)

/-- C8 (confirmed).  For every level produced by a successful `write()`, the
dataset exists with the pyramid shape derived from `full_res_shape`, and in
particular each level `k + 1` dataset's shape is the elementwise floor
division of level `k`'s shape by the downscale factor; the concrete scenario
`full_res_shape = (64, 256, 256)`, factor 2, 4 levels yields the shapes
`(64, 256, 256), (32, 128, 128), (16, 64, 64), (8, 32, 32)`. -/
theorem c8_level_shapes :
    (∀ (w : FileWriter) (g : ZarrGroup) (cache : Cache) (g' : ZarrGroup),
      w.write g cache = Except.ok g' →
      (∀ k, k < w.nLevel → (storeGet g'.datasets (DsKey.level k)).map Dataset.shape
          = some (levelShape w.fullResShape w.resizeFactor k)) ∧
      (∀ k, k + 1 < w.nLevel → (storeGet g'.datasets (DsKey.level (k + 1))).map Dataset.shape
          = (storeGet g'.datasets (DsKey.level k)).map
              (fun d => shapeDiv d.shape w.resizeFactor))) ∧
    (List.range 4).map (levelShape (64, 256, 256) 2)
      = [(64, 256, 256), (32, 128, 128), (16, 64, 64), (8, 32, 32)] := by
  constructor
  · intro w g cache g' h
    obtain ⟨s, c', hp, hkeys, -⟩ := write_ok_parts w g cache g' h
    have hsh := processLevels_shape w w.nLevel 0 g.datasets cache s c'
      (by rw [← List.range_eq_range']; exact hp) (fun j hj => absurd hj (by omega))
    have hmain : ∀ k, k < w.nLevel → ∃ d, storeGet g'.datasets (DsKey.level k) = some d ∧
        d.shape = levelShape w.fullResShape w.resizeFactor k := by
      intro k hk
      obtain ⟨d, hd, hshape⟩ := hsh k (by omega)
      exact ⟨d, by rw [hkeys k]; exact hd, hshape⟩
    constructor
    · intro k hk
      obtain ⟨d, hd, hshape⟩ := hmain k hk
      rw [hd, Option.map_some', hshape]
    · intro k hk
      obtain ⟨d1, hd1, hs1⟩ := hmain (k + 1) hk
      obtain ⟨d0, hd0, hs0⟩ := hmain k (by omega)
      rw [hd1, hd0, Option.map_some', Option.map_some', hs1, hs0]
      rfl
  · decide

/-- C8 witness: the concrete 2-level writer `wW` succeeds and its level-1
dataset records shape `(1, 1, 1)`, the floor division of level 0's shape. -/
theorem c8_level_shapes_witness :
    (storeGet gW.datasets (DsKey.level 1)).map Dataset.shape
        = some (levelShape wW.fullResShape wW.resizeFactor 1) ∧
    (storeGet gW.datasets (DsKey.level 1)).map Dataset.shape
        = (storeGet gW.datasets (DsKey.level 0)).map
            (fun d => shapeDiv d.shape wW.resizeFactor) :=
  ⟨(c8_level_shapes.1 wW { datasets := [], attrs := none } [] gW rfl).1 1 (by decide),
   (c8_level_shapes.1 wW { datasets := [], attrs := none } [] gW rfl).2 0 (by decide)⟩

/-- C9 (amended).  After a successful `write()`, the group's top-level
attributes hold exactly one multiscale document with version "0.4", axes
z/y/x of type "space", and, for each level `k` in order, path `str(k)` with a
single scale transform `[factor^k, factor^k, factor^k]`; it is written once,
at the end, after every level dataset exists.  However the `name` field is the
literal `"image"`, not the volume's name (writer.py line 170). -/
theorem c9_metadata_amended :
    ∀ (w : FileWriter) (g : ZarrGroup) (cache : Cache) (g' : ZarrGroup),
      w.write g cache = Except.ok g' →
      g'.attrs = some (writeMultiscaleMetadata w) ∧
      writeMultiscaleMetadata w = [⟨"0.4", "image",
        [⟨"z", "space"⟩, ⟨"y", "space"⟩, ⟨"x", "space"⟩],
        (List.range w.nLevel).map (fun level =>
          ⟨toString level, "scale", List.replicate 3 (w.resizeFactor ^ level)⟩)⟩] ∧
      ∀ k, k < w.nLevel → (storeGet g'.datasets (DsKey.level k)).isSome = true := by
  intro w g cache g' h
  obtain ⟨s, c', hp, hkeys, hattrs⟩ := write_ok_parts w g cache g' h
  refine ⟨hattrs, rfl, ?_⟩
  intro k hk
  have hsh := processLevels_shape w w.nLevel 0 g.datasets cache s c'
    (by rw [← List.range_eq_range']; exact hp) (fun j hj => absurd hj (by omega))
  obtain ⟨d, hd, -⟩ := hsh k (by omega)
  rw [hkeys k, hd]
  rfl

/-- C9 witness: the concrete writer `wW` stores the expected attribute
document and its level datasets all exist. -/
theorem c9_metadata_amended_witness :
    gW.attrs = some (writeMultiscaleMetadata wW) ∧
    (storeGet gW.datasets (DsKey.level 0)).isSome = true :=
  ⟨(c9_metadata_amended wW { datasets := [], attrs := none } [] gW rfl).1,
   (c9_metadata_amended wW { datasets := [], attrs := none } [] gW rfl).2.2 0 (by decide)⟩
